import Mathlib

/-!
# Verification of the kraken-tools order-book utilities

Shallow embedding, in Lean 4, of the parts of the kraken-tools C++
repository that the examined properties are about:

* the Level 2 order-book state rebuilder (src/cpp/lib/orderbook_state.cpp),
* the CRC32 checksum validator (src/cpp/lib/orderbook_common.cpp),
* the Level 3 order-book state (src/cpp/lib/level3_state.cpp),
* the flush/segmentation mixin (src/cpp/lib/flush_segment_mixin.hpp),
* the CLI input-specification parser (src/cpp/lib/cli_utils.cpp),
* the timestamp parser of the offline snapshotter
  (src/cpp/examples/process_level3_snapshots.cpp).

Modelling conventions:

* C++ double prices and quantities are modelled as rationals; the code
  under study only compares them and stores them, so the embedding is
  faithful on every value a rational can denote.
* std::string is modelled as a list of characters when positional
  operations (substr, rfind, split) matter, and as a Lean String where
  only equality is used.
* std::map is modelled as an association list kept sorted by the map
  comparator via mapSet; lookups go through mapFind.
* Machine integers: counters and sizes are modelled as Nat or Int;
  the 32-bit CRC values stay below 2 to the 32nd power by construction
  (right shifts and xor never leave the range), so no wrap-around is
  reachable in the modelled computations.
-/

namespace KrakenTools

/-- A C++ std::string viewed as its character sequence. -/
abbrev Str := List Char

/-- Embed a Lean string literal into the character-list model. -/
def mkS (s : String) : Str := s.data

/-! ## Level 2 order book (orderbook_common.hpp / orderbook_state.cpp) -/

/-- Source: struct PriceLevel. -/
structure PriceLevel where
  price : ℚ
  quantity : ℚ
deriving DecidableEq, Repr

/-- Source: struct OrderBookRecord. -/
structure OrderBookRecord where
  timestamp : String
  symbol : String
  type : String
  bids : List PriceLevel
  asks : List PriceLevel
  checksum : Nat
deriving DecidableEq, Repr

/-- Association-list model of assignment through std::map operator[]:
replace the value when the key is present, otherwise insert the key at
its position in the order given by the strict comparator lt. -/
def mapSet (lt : ℚ → ℚ → Bool) : List (ℚ × ℚ) → ℚ → ℚ → List (ℚ × ℚ)
  | [], p, q => [(p, q)]
  | (k, v) :: rest, p, q =>
    if p = k then (p, q) :: rest
    else if lt p k then (p, q) :: (k, v) :: rest
    else (k, v) :: mapSet lt rest p q

/-- Association-list model of std::map erase by key. -/
def mapErase (m : List (ℚ × ℚ)) (p : ℚ) : List (ℚ × ℚ) :=
  m.filter (fun kv => decide (kv.1 ≠ p))

/-- Association-list model of std::map find by key. -/
def mapFind (m : List (ℚ × ℚ)) (p : ℚ) : Option ℚ :=
  match m.find? (fun kv => decide (kv.1 = p)) with
  | some kv => some kv.2
  | none => none

/-- Comparator of the bid map (std::map with std::greater): descending. -/
def bidLt (a b : ℚ) : Bool := decide (b < a)

/-- Comparator of the ask map (std::map with std::less): ascending. -/
def askLt (a b : ℚ) : Bool := decide (a < b)

/-- Source: class OrderBookState (fields symbol_, bids_, asks_,
initialized_). -/
structure OrderBookState where
  symbol : String
  bids : List (ℚ × ℚ)
  asks : List (ℚ × ℚ)
  initialized : Bool
deriving DecidableEq, Repr

/-- Loop body of the snapshot branch of OrderBookState::apply: a level is
stored only when its quantity is positive. -/
def applySnapshotLevel (lt : ℚ → ℚ → Bool) (m : List (ℚ × ℚ)) (l : PriceLevel) :
    List (ℚ × ℚ) :=
  if 0 < l.quantity then mapSet lt m l.price l.quantity else m

/-- Loop body of the update branch of OrderBookState::apply: a positive
quantity sets or overwrites the level, otherwise the level is erased. -/
def applyUpdateLevel (lt : ℚ → ℚ → Bool) (m : List (ℚ × ℚ)) (l : PriceLevel) :
    List (ℚ × ℚ) :=
  if 0 < l.quantity then mapSet lt m l.price l.quantity else mapErase m l.price

/-- Source: OrderBookState::reset. -/
def OrderBookState.reset (s : OrderBookState) : OrderBookState :=
  { s with bids := [], asks := [], initialized := false }

/-- Source: OrderBookState::apply. -/
def OrderBookState.apply (s : OrderBookState) (r : OrderBookRecord) :
    OrderBookState :=
  if r.type = "snapshot" then
    { s with
      bids := r.bids.foldl (applySnapshotLevel bidLt) [],
      asks := r.asks.foldl (applySnapshotLevel askLt) [],
      initialized := true }
  else if r.type = "update" then
    { s with
      bids := r.bids.foldl (applyUpdateLevel bidLt) s.bids,
      asks := r.asks.foldl (applyUpdateLevel askLt) s.asks }
  else s

/-- Source: OrderBookState::get_top_bids (first n entries of the
descending bid map). -/
def OrderBookState.get_top_bids (s : OrderBookState) (n : Nat) : List PriceLevel :=
  (s.bids.take n).map (fun kv => ⟨kv.1, kv.2⟩)

/-- Source: OrderBookState::get_top_asks (first n entries of the
ascending ask map). -/
def OrderBookState.get_top_asks (s : OrderBookState) (n : Nat) : List PriceLevel :=
  (s.asks.take n).map (fun kv => ⟨kv.1, kv.2⟩)

/-- The prices carried by a list of levels. -/
def pricesOf (ls : List PriceLevel) : List ℚ := ls.map (fun l => l.price)

/-! ## CRC32 checksum validator (orderbook_common.cpp) -/

/-- The reflected CRC32 polynomial of init_crc32_table. -/
def crcPoly : Nat := 0xEDB88320

/-- One bit step: the inner loop body of
ChecksumValidator::init_crc32_table. -/
def crcStep (c : Nat) : Nat :=
  if c &&& 1 = 1 then (c >>> 1) ^^^ crcPoly else c >>> 1

/-- Entry i of crc32_table: eight bit steps applied to i. -/
def crcTable (i : Nat) : Nat := crcStep^[8] i

/-- ASCII digit character, as the C++ stream emits digits. -/
def digitChar48 (d : Nat) : Char := Char.ofNat (48 + d)

/-- Decimal digits of n, most significant first, in accumulator form.
The fuel argument only drives structural recursion; n + 1 fuel always
suffices. -/
def natDigitsCore : Nat → Nat → Str → Str
  | 0, _, acc => acc
  | fuel + 1, n, acc =>
    if n < 10 then digitChar48 n :: acc
    else natDigitsCore fuel (n / 10) (digitChar48 (n % 10) :: acc)

/-- Decimal digit string of a natural number. -/
def natDigits (n : Nat) : Str := natDigitsCore (n + 1) n []

/-- Left-pad a digit string with zeros to width w. -/
def padZeros (w : Nat) (s : Str) : Str := List.replicate (w - s.length) '0' ++ s

/-- Models the stream output of std::fixed with setprecision prec on a
non-negative value: the value rounded to prec decimal places, rendered
with a decimal point and exactly prec fraction digits.  The scaled
rounded value, floor of x times 10 to the prec plus one half, is
computed on the numerator and denominator directly; it is exact on
every value representable in prec decimal digits, which covers all
uses here. -/
def fmtFixedNonneg (prec : Nat) (x : ℚ) : Str :=
  let n : Nat := (2 * x.num.toNat * 10 ^ prec + x.den) / (2 * x.den)
  natDigits (n / 10 ^ prec) ++ '.' :: padZeros prec (natDigits (n % 10 ^ prec))

/-- Models std::fixed with setprecision prec; a negative value is
rendered with a leading minus sign. -/
def fmtFixed (prec : Nat) (x : ℚ) : Str :=
  if x < 0 then '-' :: fmtFixedNonneg prec (-x) else fmtFixedNonneg prec x

namespace ChecksumValidator

/-- Source: ChecksumValidator::crc32_update (table driven).  Characters
stand for their byte values; every character the formatter emits is
ASCII. -/
def crc32_update (crc : Nat) (data : Str) : Nat :=
  data.foldl (fun c ch => (c >>> 8) ^^^ crcTable ((c ^^^ ch.toNat) &&& 0xFF)) crc

/-- One level as format_for_checksum streams it: the price with
precision 10, then the quantity with precision 8. -/
def fmtLevel (l : PriceLevel) : Str :=
  fmtFixed 10 l.price ++ fmtFixed 8 l.quantity

/-- Source: ChecksumValidator::format_for_checksum. -/
def format_for_checksum (bids asks : List PriceLevel) : Str :=
  let num_levels := min 10 (min bids.length asks.length)
  ((asks.take num_levels).map fmtLevel).flatten ++
    ((bids.take num_levels).map fmtLevel).flatten

/-- Source: ChecksumValidator::calculate_crc32. -/
def calculate_crc32 (bids asks : List PriceLevel) : Nat :=
  crc32_update 0xFFFFFFFF (format_for_checksum bids asks) ^^^ 0xFFFFFFFF

/-- Source: ChecksumValidator::validate. -/
def validate (r : OrderBookRecord) : Bool :=
  if r.bids.isEmpty || r.asks.isEmpty then true
  else decide (calculate_crc32 r.bids r.asks = r.checksum)

end ChecksumValidator

/-- Source: OrderBookState::validate_checksum. -/
def OrderBookState.validate_checksum (s : OrderBookState) (expected : Nat) : Bool :=
  decide (ChecksumValidator.calculate_crc32 (s.get_top_bids 10) (s.get_top_asks 10)
    = expected)

/-- Written from the claim text, for comparison with the code: bitwise
reflected CRC32, polynomial 0xEDB88320, initial value 0xFFFFFFFF, final
xor 0xFFFFFFFF, each byte folded in as eight bit steps. -/
def crc32_reflected (data : Str) : Nat :=
  data.foldl (fun c ch => crcStep^[8] (c ^^^ ch.toNat)) 0xFFFFFFFF ^^^ 0xFFFFFFFF

/-- Written from the claim text, for comparison with the code: a
canonical checksum input that takes the top ten ask levels then the top
ten bid levels, each side truncated independently of the other. -/
def checksumInputClaim (bids asks : List PriceLevel) : Str :=
  ((asks.take 10).map ChecksumValidator.fmtLevel).flatten ++
    ((bids.take 10).map ChecksumValidator.fmtLevel).flatten

/-! ## Flush and segmentation mixin (flush_segment_mixin.hpp) -/

/-- Source: enum class SegmentMode. -/
inductive SegmentMode where
  | NONE
  | HOURLY
  | DAILY
deriving DecidableEq, Repr

/-- Does sub occur in base at position i (the comparison performed by
std::string rfind at one candidate position). -/
def occursAt (base sub : Str) (i : Nat) : Bool :=
  decide ((base.drop i).take sub.length = sub)

/-- Scan positions m, m-1, ..., 0 for the last occurrence. -/
def rfindAux (base sub : Str) : Nat → Option Nat
  | 0 => if occursAt base sub 0 then some 0 else none
  | i + 1 => if occursAt base sub (i + 1) then some (i + 1) else rfindAux base sub i

/-- Model of std::string rfind of a substring: the largest position at
which sub occurs in base, none when it does not occur. -/
def rfindSub (base sub : Str) : Option Nat := rfindAux base sub base.length

/-- Source: FlushSegmentMixin (configuration and state fields; the
capabilities the derived writer supplies, buffer size, record size and
file extension, are carried as state). -/
structure FlushSegmentMixin where
  flush_interval : Int
  memory_threshold_bytes : Nat
  segment_mode : SegmentMode
  flush_count : Nat
  segment_count : Nat
  current_segment_key : Str
  current_segment_filename : Str
  base_filename : Str
  buffer_size : Nat
  record_size : Nat
  file_extension : Str
deriving DecidableEq, Repr

/-- Source: FlushSegmentMixin::insert_segment_key. -/
def FlushSegmentMixin.insert_segment_key (base key extension : Str) : Str :=
  match rfindSub base extension with
  | none => base ++ '.' :: (key ++ extension)
  | some ext_pos => base.take ext_pos ++ '.' :: (key ++ extension)

/-- Source: FlushSegmentMixin::should_flush.  The elapsed argument is
the whole number of seconds since the last flush (the value of the
duration_cast in the source). -/
def FlushSegmentMixin.should_flush (w : FlushSegmentMixin) (elapsed : Int) : Bool :=
  if w.buffer_size = 0 then false
  else
    (decide (0 < w.flush_interval) && decide (w.flush_interval ≤ elapsed)) ||
    (decide (0 < w.memory_threshold_bytes) &&
      decide (w.memory_threshold_bytes ≤ w.buffer_size * w.record_size))

/-- Source: FlushSegmentMixin::should_transition_segment.  The nowKey
argument is the value generate_segment_key would return at the moment of
the call. -/
def FlushSegmentMixin.should_transition_segment (w : FlushSegmentMixin)
    (nowKey : Str) : Bool :=
  if w.segment_mode = SegmentMode.NONE then false
  else decide (nowKey ≠ w.current_segment_key)

/-- Source: FlushSegmentMixin::check_and_flush.  Draining the buffer
through perform_flush is modelled by zeroing buffer_size; the returned
Boolean records whether the regular (non-transition) flush ran.  A flush
resets the last-flush clock, so the elapsed value seen by should_flush
becomes zero when the transition branch flushed. -/
def FlushSegmentMixin.check_and_flush (w : FlushSegmentMixin) (nowKey : Str)
    (elapsed : Int) : FlushSegmentMixin × Bool :=
  let step1 :=
    if w.should_transition_segment nowKey then
      let step0 :=
        if 0 < w.buffer_size then
          ({ w with buffer_size := 0, flush_count := w.flush_count + 1 }, (0 : Int))
        else (w, elapsed)
      ({ step0.1 with
          current_segment_key := nowKey,
          current_segment_filename :=
            FlushSegmentMixin.insert_segment_key step0.1.base_filename nowKey
              step0.1.file_extension,
          segment_count := step0.1.segment_count + 1 }, step0.2)
    else (w, elapsed)
  if step1.1.should_flush step1.2 then
    ({ step1.1 with buffer_size := 0, flush_count := step1.1.flush_count + 1 }, true)
  else (step1.1, false)

/-! ## Level 3 order book (level3_common.hpp / level3_state.cpp) -/

/-- Source: struct Level3Order (the wire order; event is empty for
snapshot orders). -/
structure Level3Order where
  order_id : String
  limit_price : ℚ
  order_qty : ℚ
  timestamp : String
  event : String
deriving DecidableEq, Repr

/-- Source: struct Level3Record. -/
structure Level3Record where
  timestamp : String
  symbol : String
  type : String
  bids : List Level3Order
  asks : List Level3Order
  checksum : Nat
deriving DecidableEq, Repr

/-- Source: struct Order in level3_state.hpp, the heap object a
shared_ptr points to. -/
structure Order where
  order_id : String
  limit_price : ℚ
  order_qty : ℚ
  timestamp : String
deriving DecidableEq, Repr

/-- Assignment through std::map operator[]: replace the value when the
key is present, append otherwise.  Key order is irrelevant to every
property stated about the Level 3 maps, so the association list keeps
insertion order. -/
def assocSet {α β : Type} [DecidableEq α] : List (α × β) → α → β → List (α × β)
  | [], k, v => [(k, v)]
  | (k1, v1) :: rest, k, v =>
    if k1 = k then (k, v) :: rest else (k1, v1) :: assocSet rest k v

/-- std::map find by key. -/
def assocFind {α β : Type} [DecidableEq α] (m : List (α × β)) (k : α) : Option β :=
  match m.find? (fun kv => decide (kv.1 = k)) with
  | some kv => some kv.2
  | none => none

/-- std::map erase by key. -/
def assocErase {α β : Type} [DecidableEq α] (m : List (α × β)) (k : α) :
    List (α × β) :=
  m.filter (fun kv => decide (kv.1 ≠ k))

/-- Source: class Level3OrderBookState.  shared_ptr identity is modelled
by allocation indices: heap maps every allocated reference to the Order
object it denotes, next_ref is the next fresh reference (make_shared),
and the id index and the two price indices store references.  Objects
released by shared_ptr stay in the heap map; nothing references them,
so this is unobservable. -/
structure Level3OrderBookState where
  symbol : String
  heap : List (Nat × Order)
  next_ref : Nat
  orders_by_id : List (String × Nat)
  bids_by_price : List (ℚ × List Nat)
  asks_by_price : List (ℚ × List Nat)
  add_count : Nat
  modify_count : Nat
  delete_count : Nat
deriving DecidableEq, Repr

/-- Constructor Level3OrderBookState(symbol). -/
def Level3OrderBookState.init (symbol : String) : Level3OrderBookState :=
  ⟨symbol, [], 0, [], [], [], 0, 0, 0⟩

/-- Source: Level3OrderBookState::clear_all_orders. -/
def Level3OrderBookState.clear_all_orders (s : Level3OrderBookState) :
    Level3OrderBookState :=
  { s with orders_by_id := [], bids_by_price := [], asks_by_price := [] }

/-- Source: Level3OrderBookState::add_to_price_index (one side):
push_back on the level the map operator[] designates, default
constructing an empty level first when absent. -/
def addToPriceIndex (idx : List (ℚ × List Nat)) (price : ℚ) (r : Nat) :
    List (ℚ × List Nat) :=
  assocSet idx price ((assocFind idx price).getD [] ++ [r])

/-- Source: Level3OrderBookState::remove_from_price_index (one side):
std::remove erases every copy of the reference, and an emptied price
level is erased from the map. -/
def removeFromPriceIndex (idx : List (ℚ × List Nat)) (price : ℚ) (r : Nat) :
    List (ℚ × List Nat) :=
  match assocFind idx price with
  | none => idx
  | some lst =>
    let lst1 := lst.filter (fun x => decide (x ≠ r))
    if lst1 = [] then assocErase idx price else assocSet idx price lst1

/-- Source: Level3OrderBookState::add_order. -/
def Level3OrderBookState.add_order (s : Level3OrderBookState) (o : Level3Order)
    (is_bid : Bool) : Level3OrderBookState :=
  let r := s.next_ref
  let ord : Order := ⟨o.order_id, o.limit_price, o.order_qty, o.timestamp⟩
  let s1 := { s with
    heap := assocSet s.heap r ord,
    next_ref := r + 1,
    orders_by_id := assocSet s.orders_by_id o.order_id r }
  if is_bid then
    { s1 with bids_by_price := addToPriceIndex s1.bids_by_price o.limit_price r }
  else
    { s1 with asks_by_price := addToPriceIndex s1.asks_by_price o.limit_price r }

/-- The side test of modify_order and delete_order: the order is taken
for a bid exactly when the bid level at its current price holds this
reference. -/
def isBidOf (s : Level3OrderBookState) (price : ℚ) (r : Nat) : Bool :=
  match assocFind s.bids_by_price price with
  | some lst => lst.contains r
  | none => false

/-- Source: Level3OrderBookState::modify_order.  The inner heap lookup
cannot fail on states whose id index only holds allocated references;
the none branch returns the state unchanged. -/
def Level3OrderBookState.modify_order (s : Level3OrderBookState)
    (order_id : String) (new_price new_qty : ℚ) : Level3OrderBookState :=
  match assocFind s.orders_by_id order_id with
  | none => s
  | some r =>
    match assocFind s.heap r with
    | none => s
    | some ord =>
      let is_bid := isBidOf s ord.limit_price r
      let s1 :=
        if is_bid then
          { s with bids_by_price :=
              removeFromPriceIndex s.bids_by_price ord.limit_price r }
        else
          { s with asks_by_price :=
              removeFromPriceIndex s.asks_by_price ord.limit_price r }
      let ord1 := { ord with limit_price := new_price, order_qty := new_qty }
      let s2 := { s1 with heap := assocSet s1.heap r ord1 }
      if is_bid then
        { s2 with bids_by_price := addToPriceIndex s2.bids_by_price new_price r }
      else
        { s2 with asks_by_price := addToPriceIndex s2.asks_by_price new_price r }

/-- Source: Level3OrderBookState::delete_order. -/
def Level3OrderBookState.delete_order (s : Level3OrderBookState)
    (order_id : String) : Level3OrderBookState :=
  match assocFind s.orders_by_id order_id with
  | none => s
  | some r =>
    match assocFind s.heap r with
    | none => s
    | some ord =>
      let is_bid := isBidOf s ord.limit_price r
      let s1 :=
        if is_bid then
          { s with bids_by_price :=
              removeFromPriceIndex s.bids_by_price ord.limit_price r }
        else
          { s with asks_by_price :=
              removeFromPriceIndex s.asks_by_price ord.limit_price r }
      { s1 with orders_by_id := assocErase s1.orders_by_id order_id }

/-- One loop iteration of Level3OrderBookState::apply_update: dispatch
on the event string and bump the matching counter. -/
def applyL3Event (is_bid : Bool) (s : Level3OrderBookState) (o : Level3Order) :
    Level3OrderBookState :=
  if o.event = "add" then
    let s1 := s.add_order o is_bid
    { s1 with add_count := s1.add_count + 1 }
  else if o.event = "modify" then
    let s1 := s.modify_order o.order_id o.limit_price o.order_qty
    { s1 with modify_count := s1.modify_count + 1 }
  else if o.event = "delete" then
    let s1 := s.delete_order o.order_id
    { s1 with delete_count := s1.delete_count + 1 }
  else s

/-- Source: Level3OrderBookState::apply_update (bids processed first,
then asks). -/
def Level3OrderBookState.apply_update (s : Level3OrderBookState)
    (record : Level3Record) : Level3OrderBookState :=
  record.asks.foldl (applyL3Event false) (record.bids.foldl (applyL3Event true) s)

/-- Source: Level3OrderBookState::apply_snapshot: clear, then add every
bid order and every ask order (no event dispatch, no counters). -/
def Level3OrderBookState.apply_snapshot (s : Level3OrderBookState)
    (record : Level3Record) : Level3OrderBookState :=
  record.asks.foldl (fun t o => t.add_order o false)
    (record.bids.foldl (fun t o => t.add_order o true) s.clear_all_orders)

/-- One inbound record as the client routes it. -/
inductive L3Msg where
  | snapshot (record : Level3Record)
  | update (record : Level3Record)
deriving DecidableEq, Repr

/-- Apply one routed record. -/
def Level3OrderBookState.applyMsg (s : Level3OrderBookState) : L3Msg →
    Level3OrderBookState
  | L3Msg.snapshot r => s.apply_snapshot r
  | L3Msg.update r => s.apply_update r

/-- Apply a whole sequence of routed records. -/
def Level3OrderBookState.applyMsgs (s : Level3OrderBookState)
    (ms : List L3Msg) : Level3OrderBookState :=
  ms.foldl Level3OrderBookState.applyMsg s

/-- All references stored in one price index. -/
def refsOfIdx (idx : List (ℚ × List Nat)) : List Nat :=
  (idx.map (fun kv => kv.2)).flatten

/-- Sum of the lengths of all lists of one price index. -/
def totalRefs (idx : List (ℚ × List Nat)) : Nat :=
  (idx.map (fun kv => kv.2.length)).sum

/-- All references stored in the two price indices. -/
def allRefs (s : Level3OrderBookState) : List Nat :=
  refsOfIdx s.bids_by_price ++ refsOfIdx s.asks_by_price

/-- Is this event an add whose id is absent from the book it meets.
Modify and delete events are unconstrained. -/
def addOK (s : Level3OrderBookState) (o : Level3Order) : Bool :=
  if o.event = "add" then (assocFind s.orders_by_id o.order_id).isNone else true

/-- Every event of one update list meets a book without its id when the
event is an add, tracking the evolving state. -/
def eventsOK (is_bid : Bool) : Level3OrderBookState → List Level3Order → Bool
  | _, [] => true
  | s, o :: rest => addOK s o && eventsOK is_bid (applyL3Event is_bid s o) rest

/-- Every snapshot order arrives at a book without its id (snapshot
application adds every order unconditionally). -/
def snapOK (is_bid : Bool) : Level3OrderBookState → List Level3Order → Bool
  | _, [] => true
  | s, o :: rest =>
    (assocFind s.orders_by_id o.order_id).isNone &&
      snapOK is_bid (s.add_order o is_bid) rest

/-- Well-formedness of one routed record relative to the state it is
applied to: every add performed meets a book without that id. -/
def msgOK (s : Level3OrderBookState) : L3Msg → Bool
  | L3Msg.snapshot r =>
    snapOK true s.clear_all_orders r.bids &&
      snapOK false (r.bids.foldl (fun t o => t.add_order o true)
        s.clear_all_orders) r.asks
  | L3Msg.update r =>
    eventsOK true s r.bids &&
      eventsOK false (r.bids.foldl (applyL3Event true) s) r.asks

/-- Well-formedness of a record sequence. -/
def msgsOK : Level3OrderBookState → List L3Msg → Bool
  | _, [] => true
  | s, m :: rest => msgOK s m && msgsOK (s.applyMsg m) rest

/-- Membership of a reference in the level a price designates. -/
def memAtLevel (idx : List (ℚ × List Nat)) (p : ℚ) (r : Nat) : Prop :=
  ∃ lst, assocFind idx p = some lst ∧ r ∈ lst

/-- The structural invariant of the dual-index Level 3 book: keys of
every map are distinct, the id index holds distinct references below
the allocation bound, every reference of the id index is allocated and
sits in the price level its heap object designates on one of the two
sides, the price indices hold no duplicate reference, and every stored
reference is owned by the id index. -/
structure L3Inv (s : Level3OrderBookState) : Prop where
  idNodup : (s.orders_by_id.map (fun kv => kv.1)).Nodup
  refNodup : (s.orders_by_id.map (fun kv => kv.2)).Nodup
  allNodup : (allRefs s).Nodup
  heapNodup : (s.heap.map (fun kv => kv.1)).Nodup
  heapFresh : ∀ kv ∈ s.heap, kv.1 < s.next_ref
  idFresh : ∀ kv ∈ s.orders_by_id, kv.2 < s.next_ref
  bidKeysNodup : (s.bids_by_price.map (fun kv => kv.1)).Nodup
  askKeysNodup : (s.asks_by_price.map (fun kv => kv.1)).Nodup
  located : ∀ kv ∈ s.orders_by_id, ∃ ord, assocFind s.heap kv.2 = some ord ∧
    (memAtLevel s.bids_by_price ord.limit_price kv.2 ∨
      memAtLevel s.asks_by_price ord.limit_price kv.2)
  refsCovered : ∀ r ∈ allRefs s, ∃ kv ∈ s.orders_by_id, kv.2 = r

/-! ## CLI input specification parser (cli_utils.cpp, namespace cli) -/

namespace cli

/-- The whitespace set of StringUtils::trim. -/
def isTrimWs (c : Char) : Bool := c == ' ' || c == '\t' || c == '\r' || c == '\n'

/-- Source: StringUtils::trim. -/
def StringUtils.trim (s : Str) : Str :=
  ((s.dropWhile isTrimWs).reverse.dropWhile isTrimWs).reverse

/-- Source: StringUtils::split.  The std::getline loop never emits the
final empty token a trailing delimiter would produce, and an empty
input yields no token at all. -/
def StringUtils.split (s : Str) (delimiter : Char) : List Str :=
  if s = [] then []
  else if s.getLast? = some delimiter then (s.splitOn delimiter).dropLast
  else s.splitOn delimiter

/-- Source: StringUtils::ends_with. -/
def StringUtils.ends_with (s t : Str) : Bool :=
  if t.length > s.length then false
  else decide (s.drop (s.length - t.length) = t)

/-- Source: StringUtils::to_lower (ASCII tolower). -/
def StringUtils.to_lower (s : Str) : Str := s.map Char.toLower

/-- Source: ListParser::parse. -/
def ListParser.parse (input : Str) (delimiter : Char) : List Str :=
  ((StringUtils.split input delimiter).map StringUtils.trim).filter
    (fun t => decide (t ≠ []))

/-- Does sub occur somewhere in s (std::string find != npos). -/
def containsSub (s sub : Str) : Bool :=
  (List.range (s.length + 1)).any (fun i => occursAt s sub i)

/-- Source: InputParser::is_file_format. -/
def InputParser.is_file_format (input : Str) : Bool :=
  let has_extension := containsSub input (mkS ".csv") || containsSub input (mkS ".txt")
  let starts_with_path := input.head? == some '/' ||
    decide (input.take 2 = mkS "./") || decide (input.take 3 = mkS "../")
  let csv_with_column := input.contains ':' && has_extension
  has_extension || starts_with_path || csv_with_column

/-- Source: InputParser::is_text_file. -/
def InputParser.is_text_file (filepath : Str) : Bool :=
  StringUtils.ends_with (StringUtils.to_lower filepath) (mkS ".txt")

/-- Model of std::stoi as the call sites use it: skip leading
whitespace, read an optional sign and a nonempty digit run; none models
the thrown exception when no digit is found. -/
def stoiModel (s : Str) : Option Int :=
  let s1 := s.dropWhile (fun c => c == ' ' || c == '\t' || c == '\n' || c == '\r')
  let signAndRest : Int × Str :=
    match s1 with
    | '-' :: rest => (-1, rest)
    | '+' :: rest => (1, rest)
    | _ => (1, s1)
  let digits := signAndRest.2.takeWhile (fun c => c.isDigit)
  if digits = [] then none
  else some (signAndRest.1 *
    ((digits.foldl (fun acc c => 10 * acc + (c.toNat - 48)) 0 : Nat) : Int))

/-- Abstract file system: a path maps to the getline decomposition of
the file, none when the stream cannot be opened. -/
abbrev FileSystem := Str → Option (List Str)

/-- Loop of TextFileParser::parse_lines: keep trimmed non-empty
non-comment lines while under the limit (a negative limit means no
limit). -/
def parseLinesLoop (limit : Int) : List Str → Int → List Str
  | [], _ => []
  | l :: rest, count =>
    if decide (limit < 0) || decide (count < limit) then
      let trimmed := StringUtils.trim l
      if decide (trimmed ≠ []) && decide (trimmed.head? ≠ some '#') then
        trimmed :: parseLinesLoop limit rest (count + 1)
      else parseLinesLoop limit rest count
    else []

/-- Source: TextFileParser::parse_lines. -/
def TextFileParser.parse_lines (fs : FileSystem) (filepath : Str) (limit : Int) :
    List Str :=
  match fs filepath with
  | none => []
  | some lines => parseLinesLoop limit lines 0

/-- Loop of CSVParser::parse_column over the data rows. -/
def parseColumnLoop (limit : Int) (column_index : Nat) : List Str → Int → List Str
  | [], _ => []
  | line :: rest, count =>
    if decide (limit < 0) || decide (count < limit) then
      let fields := StringUtils.split line ','
      match fields.get? column_index with
      | some f =>
        let value := StringUtils.trim f
        if decide (value ≠ []) then
          value :: parseColumnLoop limit column_index rest (count + 1)
        else parseColumnLoop limit column_index rest count
      | none => parseColumnLoop limit column_index rest count
    else []

/-- Source: CSVParser::parse_column. -/
def CSVParser.parse_column (fs : FileSystem) (filepath column_name : Str)
    (limit : Int) : List Str :=
  match fs filepath with
  | none => []
  | some [] => []
  | some (header_line :: rows) =>
    let headers := StringUtils.split header_line ','
    match headers.findIdx? (fun h => StringUtils.trim h == column_name) with
    | none => []
    | some column_index => parseColumnLoop limit column_index rows 0

/-- Source: InputParser::InputType. -/
inductive InputType where
  | UNKNOWN
  | DIRECT_LIST
  | TEXT_FILE
  | CSV_FILE
deriving DecidableEq, Repr

/-- Source: InputParser::ParseResult.  The limit field is left
uninitialized by the source on the direct-list and empty-input paths;
the model writes 0 there (no reader consumes it on those paths). -/
structure ParseResult where
  type : InputType
  values : List Str
  error_message : Str
  success : Bool
  filepath : Str
  column_name : Str
  limit : Int
deriving DecidableEq, Repr

/-- Source: InputParser::parse_text_file. -/
def InputParser.parse_text_file (fs : FileSystem) (input : Str) : ParseResult :=
  match input.findIdx? (fun c => c == ':') with
  | none =>
    let values := TextFileParser.parse_lines fs input (-1)
    if values = [] then
      ⟨InputType.TEXT_FILE, values, mkS "No values extracted from text file",
        false, input, [], -1⟩
    else ⟨InputType.TEXT_FILE, values, [], true, input, [], -1⟩
  | some cp =>
    let filepath := input.take cp
    let limit_str := input.drop (cp + 1)
    match stoiModel limit_str with
    | none =>
      ⟨InputType.TEXT_FILE, [], mkS "Invalid limit: " ++ limit_str, false,
        filepath, [], -1⟩
    | some lim =>
      let values := TextFileParser.parse_lines fs filepath lim
      if values = [] then
        ⟨InputType.TEXT_FILE, values, mkS "No values extracted from text file",
          false, filepath, [], lim⟩
      else ⟨InputType.TEXT_FILE, values, [], true, filepath, [], lim⟩

/-- Source: InputParser::parse_csv_format. -/
def InputParser.parse_csv_format (fs : FileSystem) (input : Str) : ParseResult :=
  match input.findIdx? (fun c => c == ':') with
  | none =>
    ⟨InputType.CSV_FILE, [], mkS "Invalid CSV format - missing column specification",
      false, [], [], -1⟩
  | some fc =>
    let filepath := input.take fc
    let remainder := input.drop (fc + 1)
    match remainder.findIdx? (fun c => c == ':') with
    | none =>
      let values := CSVParser.parse_column fs filepath remainder (-1)
      if values = [] then
        ⟨InputType.CSV_FILE, values, mkS "No values extracted from CSV", false,
          filepath, remainder, -1⟩
      else ⟨InputType.CSV_FILE, values, [], true, filepath, remainder, -1⟩
    | some sc =>
      let column_name := remainder.take sc
      let limit_str := remainder.drop (sc + 1)
      match stoiModel limit_str with
      | none =>
        ⟨InputType.CSV_FILE, [], mkS "Invalid limit: " ++ limit_str, false,
          filepath, column_name, -1⟩
      | some lim =>
        let values := CSVParser.parse_column fs filepath column_name lim
        if values = [] then
          ⟨InputType.CSV_FILE, values, mkS "No values extracted from CSV", false,
            filepath, column_name, lim⟩
        else ⟨InputType.CSV_FILE, values, [], true, filepath, column_name, lim⟩

/-- Source: InputParser::parse_direct_list. -/
def InputParser.parse_direct_list (input : Str) (delimiter : Char) : ParseResult :=
  let values := ListParser.parse input delimiter
  if values = [] then
    ⟨InputType.DIRECT_LIST, values, mkS "No values found in list", false, [], [], 0⟩
  else ⟨InputType.DIRECT_LIST, values, [], true, [], [], 0⟩

/-- Source: InputParser::parse (the two-argument overload; the
one-argument overload passes a comma). -/
def InputParser.parse (fs : FileSystem) (input : Str) (list_delimiter : Char) :
    ParseResult :=
  if input = [] then ⟨InputType.UNKNOWN, [], mkS "Empty input", false, [], [], 0⟩
  else if InputParser.is_file_format input then
    let filepath :=
      match input.findIdx? (fun c => c == ':') with
      | none => input
      | some cp => input.take cp
    if InputParser.is_text_file filepath then InputParser.parse_text_file fs input
    else InputParser.parse_csv_format fs input
  else InputParser.parse_direct_list input list_delimiter

end cli

/-! ## Offline snapshotter timestamp parsing (process_level3_snapshots.cpp) -/

/-- Days since 1970-01-01 of the civil date y-m-d, with truncating
integer division as in C (the standard days-from-civil computation that
mktime and timegm perform on in-range fields). -/
def daysFromCivil (y m d : Int) : Int :=
  let y1 := y - (if m ≤ 2 then 1 else 0)
  let era := Int.tdiv (if 0 ≤ y1 then y1 else y1 - 399) 400
  let yoe := y1 - era * 400
  let doy := Int.tdiv (153 * (m + (if 2 < m then -3 else 9)) + 2) 5 + d - 1
  let doe := yoe * 365 + Int.tdiv yoe 4 - Int.tdiv yoe 100 + doy
  era * 146097 + doe - 719468

/-- Modelled from the C library: std::mktime interprets the broken-down
fields in the local time zone; tz is that zone's offset east of UTC in
seconds (a fixed offset, daylight saving ignored; fields in range, as
the claimed format guarantees).  tz = 0 gives the UTC interpretation,
timegm. -/
def mktimeModel (tz year mon mday hour minute sec : Int) : Int :=
  daysFromCivil year mon mday * 86400 + hour * 3600 + minute * 60 + sec - tz

/-- One unsigned %d conversion of sscanf as the timestamp format uses
it: a maximal nonempty digit run. -/
def scanNat (s : Str) : Option (Int × Str) :=
  let digits := s.takeWhile (fun c => c.isDigit)
  if digits = [] then none
  else some (((digits.foldl (fun acc c => 10 * acc + (c.toNat - 48)) 0 : Nat) : Int),
    s.drop digits.length)

/-- Match one literal character of the sscanf format. -/
def scanLit (c : Char) (s : Str) : Option Str :=
  match s with
  | c1 :: rest => if c1 = c then some rest else none
  | [] => none

/-- Source: parse_timestamp in process_level3_snapshots.cpp.  The sscanf
format "%d-%d-%d %d:%d:%d.%d" is modelled on inputs that match it (the
claimed YYYY-MM-DD HH:MM:SS.mmm form; elsewhere the C code would read
partially zeroed fields, modelled as none).  The subtraction of 1900
from the year and 1 from the month cancels against mktime's own offsets
and is folded away.  The result pairs the whole seconds mktime returns
with the millisecond field the code keeps separately. -/
def parse_timestamp (tz : Int) (s : Str) : Option (Int × Int) :=
  (scanNat s).bind fun ys =>
  (scanLit '-' ys.2).bind fun s2 =>
  (scanNat s2).bind fun mos =>
  (scanLit '-' mos.2).bind fun s4 =>
  (scanNat s4).bind fun ds =>
  (scanLit ' ' ds.2).bind fun s6 =>
  (scanNat s6).bind fun hs =>
  (scanLit ':' hs.2).bind fun s8 =>
  (scanNat s8).bind fun mis =>
  (scanLit ':' mis.2).bind fun s10 =>
  (scanNat s10).bind fun secs =>
  (scanLit '.' secs.2).bind fun s12 =>
  (scanNat s12).bind fun mss =>
  some (mktimeModel tz ys.1 mos.1 ds.1 hs.1 mis.1 secs.1, mss.1)

/-! ### Map lookup lemmas -/

theorem mapFind_nil (p : ℚ) : mapFind [] p = none := rfl

theorem mapFind_mapSet_self (lt : ℚ → ℚ → Bool) (m : List (ℚ × ℚ)) (p q : ℚ) :
    mapFind (mapSet lt m p q) p = some q := by
  induction m with
  | nil => simp [mapSet, mapFind, List.find?]
  | cons kv rest ih =>
    obtain ⟨k, v⟩ := kv
    by_cases hpk : p = k
    · simp [mapSet, hpk, mapFind, List.find?]
    · by_cases hlt : lt p k
      · simp [mapSet, hpk, hlt, mapFind, List.find?]
      · simpa [mapSet, hpk, hlt, mapFind, List.find?, Ne.symm hpk] using ih

theorem mapFind_mapSet_ne (lt : ℚ → ℚ → Bool) (m : List (ℚ × ℚ)) (p q r : ℚ)
    (h : r ≠ p) : mapFind (mapSet lt m p q) r = mapFind m r := by
  have h1 : ¬ p = r := fun hh => h hh.symm
  induction m with
  | nil => simp [mapSet, mapFind, List.find?, h1]
  | cons kv rest ih =>
    obtain ⟨k, v⟩ := kv
    by_cases hpk : p = k
    · subst hpk
      simp [mapSet, mapFind, List.find?, h1]
    · by_cases hlt : lt p k
      · simp [mapSet, hpk, hlt, mapFind, List.find?, h1]
      · by_cases hkr : k = r
        · subst hkr
          simp [mapSet, hpk, hlt, mapFind, List.find?]
        · simpa [mapSet, hpk, hlt, mapFind, List.find?, hkr] using ih

theorem mapFind_mapErase_self (m : List (ℚ × ℚ)) (p : ℚ) :
    mapFind (mapErase m p) p = none := by
  induction m with
  | nil => simp [mapErase, mapFind]
  | cons kv rest ih =>
    obtain ⟨k, v⟩ := kv
    by_cases hkp : k = p
    · simpa [mapErase, hkp] using ih
    · simpa [mapErase, mapFind, List.find?, hkp] using ih

theorem mapFind_mapErase_ne (m : List (ℚ × ℚ)) (p r : ℚ) (h : r ≠ p) :
    mapFind (mapErase m p) r = mapFind m r := by
  induction m with
  | nil => simp [mapErase, mapFind]
  | cons kv rest ih =>
    obtain ⟨k, v⟩ := kv
    by_cases hkp : k = p
    · simp [mapErase, mapFind, List.find?, hkp, Ne.symm h]
      simpa [mapErase, mapFind] using ih
    · by_cases hkr : k = r
      · subst hkr
        simp [mapErase, mapFind, List.find?, hkp, h]
      · simpa [mapErase, mapFind, List.find?, hkp, hkr] using ih

theorem mapErase_absent (m : List (ℚ × ℚ)) (p : ℚ) (h : mapFind m p = none) :
    mapErase m p = m := by
  induction m with
  | nil => rfl
  | cons kv rest ih =>
    obtain ⟨k, v⟩ := kv
    by_cases hkp : k = p
    · simp [mapFind, List.find?, hkp] at h
    · have hrest : mapFind rest p = none := by
        simpa [mapFind, List.find?, hkp] using h
      simp [mapErase, hkp, ih hrest]
      simpa [mapErase] using ih hrest

theorem mapFind_applySnapshotLevel_ne (lt : ℚ → ℚ → Bool) (m : List (ℚ × ℚ))
    (l : PriceLevel) (p : ℚ) (hp : l.price ≠ p) :
    mapFind (applySnapshotLevel lt m l) p = mapFind m p := by
  unfold applySnapshotLevel
  split
  · exact mapFind_mapSet_ne lt m l.price l.quantity p (Ne.symm hp)
  · rfl

theorem mapFind_applyUpdateLevel_ne (lt : ℚ → ℚ → Bool) (m : List (ℚ × ℚ))
    (l : PriceLevel) (p : ℚ) (hp : l.price ≠ p) :
    mapFind (applyUpdateLevel lt m l) p = mapFind m p := by
  unfold applyUpdateLevel
  split
  · exact mapFind_mapSet_ne lt m l.price l.quantity p (Ne.symm hp)
  · exact mapFind_mapErase_ne m l.price p (Ne.symm hp)

theorem snapshot_fold_find_not_mem (lt : ℚ → ℚ → Bool) (ls : List PriceLevel)
    (acc : List (ℚ × ℚ)) (p : ℚ) (h : ∀ l ∈ ls, l.price ≠ p) :
    mapFind (ls.foldl (applySnapshotLevel lt) acc) p = mapFind acc p := by
  induction ls generalizing acc with
  | nil => rfl
  | cons l ls ih =>
    rw [List.foldl_cons, ih _ (fun x hx => h x (List.mem_cons_of_mem l hx)),
      mapFind_applySnapshotLevel_ne lt acc l p (h l (List.mem_cons_self l ls))]

theorem update_fold_find_not_mem (lt : ℚ → ℚ → Bool) (ls : List PriceLevel)
    (acc : List (ℚ × ℚ)) (p : ℚ) (h : ∀ l ∈ ls, l.price ≠ p) :
    mapFind (ls.foldl (applyUpdateLevel lt) acc) p = mapFind acc p := by
  induction ls generalizing acc with
  | nil => rfl
  | cons l ls ih =>
    rw [List.foldl_cons, ih _ (fun x hx => h x (List.mem_cons_of_mem l hx)),
      mapFind_applyUpdateLevel_ne lt acc l p (h l (List.mem_cons_self l ls))]

theorem snapshot_fold_find (lt : ℚ → ℚ → Bool) (ls : List PriceLevel)
    (acc : List (ℚ × ℚ)) (p : ℚ) (h : (pricesOf ls).Nodup) :
    mapFind (ls.foldl (applySnapshotLevel lt) acc) p =
      match ls.find? (fun l => decide (l.price = p)) with
      | some l => if 0 < l.quantity then some l.quantity else mapFind acc p
      | none => mapFind acc p := by
  induction ls generalizing acc with
  | nil => rfl
  | cons l ls ih =>
    have hcons : l.price ∉ pricesOf ls ∧ (pricesOf ls).Nodup := by
      simpa [pricesOf] using h
    by_cases hp : l.price = p
    · have hnot : ∀ x ∈ ls, x.price ≠ p := by
        intro x hx hxe
        exact hcons.1 (by simpa [pricesOf, hxe, hp] using List.mem_map_of_mem (fun l => l.price) hx)
      rw [List.foldl_cons, snapshot_fold_find_not_mem lt ls _ p hnot]
      unfold applySnapshotLevel
      by_cases hq : 0 < l.quantity
      · simp [List.find?, hp, hq, hp ▸ mapFind_mapSet_self lt acc l.price l.quantity]
      · simp [List.find?, hp, hq]
    · rw [List.foldl_cons, ih _ hcons.2]
      simp only [List.find?, hp, decide_eq_true_eq, decide_False]
      cases hf : ls.find? (fun l => decide (l.price = p)) with
      | some x => simp [hf, mapFind_applySnapshotLevel_ne lt acc l p hp]
      | none => simp [hf, mapFind_applySnapshotLevel_ne lt acc l p hp]

theorem update_fold_find (lt : ℚ → ℚ → Bool) (ls : List PriceLevel)
    (acc : List (ℚ × ℚ)) (p : ℚ) (h : (pricesOf ls).Nodup) :
    mapFind (ls.foldl (applyUpdateLevel lt) acc) p =
      match ls.find? (fun l => decide (l.price = p)) with
      | some l => if 0 < l.quantity then some l.quantity else none
      | none => mapFind acc p := by
  induction ls generalizing acc with
  | nil => rfl
  | cons l ls ih =>
    have hcons : l.price ∉ pricesOf ls ∧ (pricesOf ls).Nodup := by
      simpa [pricesOf] using h
    by_cases hp : l.price = p
    · have hnot : ∀ x ∈ ls, x.price ≠ p := by
        intro x hx hxe
        exact hcons.1 (by simpa [pricesOf, hxe, hp] using List.mem_map_of_mem (fun l => l.price) hx)
      rw [List.foldl_cons, update_fold_find_not_mem lt ls _ p hnot]
      unfold applyUpdateLevel
      by_cases hq : 0 < l.quantity
      · simp [List.find?, hp, hq, hp ▸ mapFind_mapSet_self lt acc l.price l.quantity]
      · simp [List.find?, hp, hq, hp ▸ mapFind_mapErase_self acc l.price]
    · rw [List.foldl_cons, ih _ hcons.2]
      simp only [List.find?, hp, decide_eq_true_eq, decide_False]
      cases hf : ls.find? (fun l => decide (l.price = p)) with
      | some x => simp [hf]
      | none => simp [hf, mapFind_applyUpdateLevel_ne lt acc l p hp]

/-- Lookup characterisation of a snapshot side built from the empty map:
exactly the positive-quantity levels are present. -/
theorem snapshot_side_char (lt : ℚ → ℚ → Bool) (ls : List PriceLevel) (p q : ℚ)
    (h : (pricesOf ls).Nodup) :
    mapFind (ls.foldl (applySnapshotLevel lt) []) p = some q ↔
      (⟨p, q⟩ : PriceLevel) ∈ ls ∧ 0 < q := by
  rw [snapshot_fold_find lt ls [] p h]
  cases hf : ls.find? (fun l => decide (l.price = p)) with
  | none =>
    rw [List.find?_eq_none] at hf
    simp only [mapFind_nil]
    constructor
    · intro hc; cases hc
    · rintro ⟨hm, -⟩
      exact absurd (by simp : decide ((⟨p, q⟩ : PriceLevel).price = p) = true) (hf _ hm)
  | some l =>
    have hlp : l.price = p := by simpa using List.find?_some hf
    have hlm : l ∈ ls := List.mem_of_find?_eq_some hf
    by_cases hq : 0 < l.quantity
    · simp only [hq, if_true, Option.some.injEq]
      constructor
      · intro he
        refine ⟨?_, he ▸ hq⟩
        have : l = ⟨p, q⟩ := by
          cases l
          simp_all
        exact this ▸ hlm
      · rintro ⟨hm, hqpos⟩
        have : (⟨p, q⟩ : PriceLevel) = l := by
          refine List.inj_on_of_nodup_map (by simpa [pricesOf] using h) hm hlm ?_
          simp [hlp]
        rw [← this]
    · simp only [hq, if_false, mapFind_nil]
      constructor
      · intro hc; cases hc
      · rintro ⟨hm, hqpos⟩
        have : (⟨p, q⟩ : PriceLevel) = l := by
          refine List.inj_on_of_nodup_map (by simpa [pricesOf] using h) hm hlm ?_
          simp [hlp]
        exact absurd (by simpa [← this] using hqpos) hq

/-- C1 claim: behaviour of OrderBookState::apply.  For a snapshot record
the prior state is discarded and exactly the positive-quantity levels are
inserted; for an update record each level overwrites (positive quantity)
or removes (zero or negative quantity) its price, and a quantity-zero
update at an absent price leaves the whole state unchanged. -/
theorem orderbook_apply_spec (s : OrderBookState) (r : OrderBookRecord) :
    (r.type = "snapshot" → (pricesOf r.bids).Nodup → (pricesOf r.asks).Nodup →
      (∀ p q, mapFind (s.apply r).bids p = some q ↔ ((⟨p, q⟩ : PriceLevel) ∈ r.bids ∧ 0 < q)) ∧
      (∀ p q, mapFind (s.apply r).asks p = some q ↔ ((⟨p, q⟩ : PriceLevel) ∈ r.asks ∧ 0 < q)))
    ∧
    (r.type = "update" →
      ((pricesOf r.bids).Nodup → ∀ p, mapFind (s.apply r).bids p =
        match r.bids.find? (fun l => decide (l.price = p)) with
        | some l => if 0 < l.quantity then some l.quantity else none
        | none => mapFind s.bids p) ∧
      ((pricesOf r.asks).Nodup → ∀ p, mapFind (s.apply r).asks p =
        match r.asks.find? (fun l => decide (l.price = p)) with
        | some l => if 0 < l.quantity then some l.quantity else none
        | none => mapFind s.asks p))
    ∧
    (∀ p, mapFind s.bids p = none →
      s.apply ⟨r.timestamp, r.symbol, "update", [⟨p, 0⟩], [], r.checksum⟩ = s)
    ∧
    (∀ p, mapFind s.asks p = none →
      s.apply ⟨r.timestamp, r.symbol, "update", [], [⟨p, 0⟩], r.checksum⟩ = s) := by
  refine ⟨?_, ?_, ?_, ?_⟩
  · intro ht hb ha
    constructor
    · intro p q
      rw [show (s.apply r).bids = r.bids.foldl (applySnapshotLevel bidLt) [] by
        simp [OrderBookState.apply, ht]]
      exact snapshot_side_char bidLt r.bids p q hb
    · intro p q
      rw [show (s.apply r).asks = r.asks.foldl (applySnapshotLevel askLt) [] by
        simp [OrderBookState.apply, ht]]
      exact snapshot_side_char askLt r.asks p q ha
  · intro ht
    constructor
    · intro hb p
      rw [show (s.apply r).bids = r.bids.foldl (applyUpdateLevel bidLt) s.bids by
        simp [OrderBookState.apply, ht]]
      exact update_fold_find bidLt r.bids s.bids p hb
    · intro ha p
      rw [show (s.apply r).asks = r.asks.foldl (applyUpdateLevel askLt) s.asks by
        simp [OrderBookState.apply, ht]]
      exact update_fold_find askLt r.asks s.asks p ha
  · intro p hnone
    simp [OrderBookState.apply, applyUpdateLevel, mapErase_absent s.bids p hnone]
  · intro p hnone
    simp [OrderBookState.apply, applyUpdateLevel, mapErase_absent s.asks p hnone]

/-- Witness for orderbook_apply_spec at a concrete state and record. -/
theorem orderbook_apply_spec_witness :
    (mapFind
        (OrderBookState.apply ⟨"BTC", [(5, 7)], [], true⟩
          ⟨"t", "BTC", "snapshot", [⟨100, 1⟩, ⟨99, 0⟩], [⟨101, 2⟩], 0⟩).bids 100 =
      some 1 ∧ (100 : ℚ) = 100) :=
  ⟨((orderbook_apply_spec ⟨"BTC", [(5, 7)], [], true⟩
      ⟨"t", "BTC", "snapshot", [⟨100, 1⟩, ⟨99, 0⟩], [⟨101, 2⟩], 0⟩).1 rfl
      (by decide) (by decide)).1 100 1 |>.mpr (by decide), rfl⟩

/-- C9 claim: applying the same snapshot record twice in succession
yields the same state as applying it once. -/
theorem apply_snapshot_idempotent (s : OrderBookState) (r : OrderBookRecord)
    (h : r.type = "snapshot") : (s.apply r).apply r = s.apply r := by
  simp [OrderBookState.apply, h]

/-- Witness for apply_snapshot_idempotent at a concrete record. -/
theorem apply_snapshot_idempotent_witness :
    (OrderBookState.apply
       (OrderBookState.apply ⟨"BTC", [], [], false⟩
          ⟨"t", "BTC", "snapshot", [⟨100, 1⟩], [⟨101, 2⟩], 0⟩)
       ⟨"t", "BTC", "snapshot", [⟨100, 1⟩], [⟨101, 2⟩], 0⟩) =
    OrderBookState.apply ⟨"BTC", [], [], false⟩
       ⟨"t", "BTC", "snapshot", [⟨100, 1⟩], [⟨101, 2⟩], 0⟩ :=
  apply_snapshot_idempotent _ _ rfl

/-! ### Segment filename rule (C5) -/

theorem occursAt_append_self (x ext : Str) : occursAt (x ++ ext) ext x.length = true := by
  unfold occursAt
  simp [List.drop_left, List.take_length]

theorem occursAt_append_false (x ext : Str) (j : Nat) (hne : ext ≠ [])
    (hj : x.length < j) : occursAt (x ++ ext) ext j = false := by
  unfold occursAt
  rw [decide_eq_false_iff_not]
  intro he
  have hlen := congrArg List.length he
  have hpos : 0 < ext.length := List.length_pos.mpr hne
  simp only [List.length_take, List.length_drop, List.length_append] at hlen
  omega

theorem rfindAux_eq_some (base sub : Str) (k : Nat) :
    ∀ m, k ≤ m → occursAt base sub k = true →
      (∀ j, k < j → j ≤ m → occursAt base sub j = false) →
      rfindAux base sub m = some k := by
  intro m
  induction m with
  | zero =>
    intro hm hk _
    have : k = 0 := Nat.le_zero.mp hm
    subst this
    simp [rfindAux, hk]
  | succ m ih =>
    intro hm hk habove
    by_cases he : k = m + 1
    · subst he
      simp [rfindAux, hk]
    · have hfalse : occursAt base sub (m + 1) = false :=
        habove _ (by omega) (le_refl _)
      simp only [rfindAux, hfalse, Bool.false_eq_true, if_false]
      exact ih (by omega) hk (fun j h1 h2 => habove j h1 (by omega))

theorem rfindSub_append (x ext : Str) (hne : ext ≠ []) :
    rfindSub (x ++ ext) ext = some x.length := by
  unfold rfindSub
  exact rfindAux_eq_some (x ++ ext) ext x.length (x ++ ext).length
    (by simp) (occursAt_append_self x ext)
    (fun j h1 _ => occursAt_append_false x ext j hne h1)

/-- C5 counterexample: for a base without the extension the rotated name
is not base plus dot plus key; the extension is appended as well. -/
theorem insert_segment_key_counterexample :
    FlushSegmentMixin.insert_segment_key (mkS "output") (mkS "K") (mkS ".csv") ≠
      mkS "output.K" := by
  decide

/-- C5 amended claim: for a base of the form x followed by the extension,
the segment key is inserted before the extension; for a base in which the
extension does not occur at all, the name is base, dot, key, and then the
extension is still appended. -/
theorem insert_segment_key_spec :
    (∀ x ext key, ext ≠ [] →
      FlushSegmentMixin.insert_segment_key (x ++ ext) key ext =
        x ++ '.' :: (key ++ ext)) ∧
    (∀ base key ext, rfindSub base ext = none →
      FlushSegmentMixin.insert_segment_key base key ext =
        base ++ '.' :: (key ++ ext)) := by
  constructor
  · intro x ext key hne
    unfold FlushSegmentMixin.insert_segment_key
    rw [rfindSub_append x ext hne]
    simp [List.take_left]
  · intro base key ext hnone
    unfold FlushSegmentMixin.insert_segment_key
    rw [hnone]

/-- Witness for insert_segment_key_spec at concrete names. -/
theorem insert_segment_key_spec_witness :
    FlushSegmentMixin.insert_segment_key (mkS "out" ++ mkS ".csv") (mkS "20250417_14")
        (mkS ".csv") =
      mkS "out" ++ '.' :: (mkS "20250417_14" ++ mkS ".csv") :=
  insert_segment_key_spec.1 (mkS "out") (mkS ".csv") (mkS "20250417_14") (by decide)

/-! ### Flush triggers (C6) -/

/-- C6 claim: on a call that does not cross a segment boundary, the
buffer is drained exactly when it is non-empty and an enabled trigger
fires; the time trigger needs a positive flush interval, the memory
trigger a positive threshold, and the two combine with OR. -/
theorem check_and_flush_trigger_spec (w : FlushSegmentMixin) (nowKey : Str)
    (elapsed : Int) (hseg : w.should_transition_segment nowKey = false) :
    ((w.check_and_flush nowKey elapsed).2 = true ↔
      w.buffer_size ≠ 0 ∧
        ((0 < w.flush_interval ∧ w.flush_interval ≤ elapsed) ∨
         (0 < w.memory_threshold_bytes ∧
           w.memory_threshold_bytes ≤ w.buffer_size * w.record_size))) ∧
    ((w.check_and_flush nowKey elapsed).2 = true →
      (w.check_and_flush nowKey elapsed).1.buffer_size = 0) ∧
    ((w.check_and_flush nowKey elapsed).2 = false →
      (w.check_and_flush nowKey elapsed).1 = w) := by
  unfold FlushSegmentMixin.check_and_flush
  simp only [hseg, Bool.false_eq_true, if_false]
  by_cases hf : w.should_flush elapsed = true
  · refine ⟨?_, ?_, ?_⟩
    · simp only [hf, if_true, true_iff]
      revert hf
      unfold FlushSegmentMixin.should_flush
      by_cases hb : w.buffer_size = 0
      · simp [hb]
      · simp only [hb, if_false]
        intro hor
        refine ⟨hb, ?_⟩
        rcases Bool.or_eq_true_iff.mp hor with h | h
        · exact Or.inl (by simpa using h)
        · exact Or.inr (by simpa using h)
    · intro _
      simp [hf]
    · intro hcontr
      simp [hf] at hcontr
  · have hf' : w.should_flush elapsed = false := Bool.eq_false_iff.mpr hf
    refine ⟨?_, ?_, ?_⟩
    · simp only [hf', Bool.false_eq_true, if_false]
      constructor
      · intro hc; cases hc
      · rintro ⟨hb, htrig⟩
        exfalso
        apply hf
        unfold FlushSegmentMixin.should_flush
        simp only [hb, if_false]
        rcases htrig with ⟨h1, h2⟩ | ⟨h1, h2⟩
        · exact Bool.or_eq_true_iff.mpr (Or.inl (by simp [h1, h2]))
        · exact Bool.or_eq_true_iff.mpr (Or.inr (by simp [h1, h2]))
    · intro hcontr
      simp [hf'] at hcontr
    · intro _
      simp [hf']

/-- Witness for check_and_flush_trigger_spec on a concrete writer state. -/
theorem check_and_flush_trigger_spec_witness :
    ((FlushSegmentMixin.check_and_flush
        ⟨30, 10485760, SegmentMode.NONE, 0, 0, [], [], mkS "out.csv", 4, 3000000, mkS ".csv"⟩
        [] 5).2 = true ↔
      (4 : Nat) ≠ 0 ∧
        (((0 : Int) < 30 ∧ (30 : Int) ≤ 5) ∨
         ((0 : Nat) < 10485760 ∧ (10485760 : Nat) ≤ 4 * 3000000))) :=
  (check_and_flush_trigger_spec
    ⟨30, 10485760, SegmentMode.NONE, 0, 0, [], [], mkS "out.csv", 4, 3000000, mkS ".csv"⟩
    [] 5 rfl).1

/-! ### CRC32 bit-level lemmas (C3) -/

theorem xor_shiftRightN (a b n : Nat) : (a ^^^ b) >>> n = a >>> n ^^^ b >>> n := by
  apply Nat.eq_of_testBit_eq
  intro i
  simp [Nat.testBit_shiftRight, Nat.testBit_xor]

theorem xor_cancel_pair (x y p : Nat) : (x ^^^ p) ^^^ (y ^^^ p) = x ^^^ y := by
  apply Nat.eq_of_testBit_eq
  intro i
  simp only [Nat.testBit_xor]
  cases x.testBit i <;> cases y.testBit i <;> cases p.testBit i <;> rfl

theorem crcStep_eq (c : Nat) :
    crcStep c = if c % 2 = 1 then c / 2 ^^^ crcPoly else c / 2 := by
  unfold crcStep
  rw [Nat.and_one_is_mod, Nat.shiftRight_eq_div_pow]

theorem crcStep_xor (a b : Nat) : crcStep (a ^^^ b) = crcStep a ^^^ crcStep b := by
  have hx : (a ^^^ b) % 2 = 1 ↔ ¬((a % 2 = 1) ↔ (b % 2 = 1)) :=
    Nat.xor_mod_two_eq_one
  rcases Nat.mod_two_eq_zero_or_one a with ha | ha <;>
    rcases Nat.mod_two_eq_zero_or_one b with hb | hb
  · have h2 : (a ^^^ b) % 2 = 0 := by
      rcases Nat.mod_two_eq_zero_or_one (a ^^^ b) with h | h
      · exact h
      · exact absurd (hx.mp h) (by simp [ha, hb])
    rw [crcStep_eq, crcStep_eq, crcStep_eq, if_neg (by omega), if_neg (by omega),
      if_neg (by omega), Nat.xor_div_two]
  · have h2 : (a ^^^ b) % 2 = 1 := hx.mpr (by simp [ha, hb])
    rw [crcStep_eq, crcStep_eq, crcStep_eq, if_pos h2, if_neg (by omega),
      if_pos hb, Nat.xor_div_two, Nat.xor_assoc]
  · have h2 : (a ^^^ b) % 2 = 1 := hx.mpr (by simp [ha, hb])
    rw [crcStep_eq, crcStep_eq, crcStep_eq, if_pos h2, if_pos ha,
      if_neg (by omega), Nat.xor_div_two, Nat.xor_assoc,
      Nat.xor_comm (b / 2) crcPoly, ← Nat.xor_assoc]
  · have h2 : (a ^^^ b) % 2 = 0 := by
      rcases Nat.mod_two_eq_zero_or_one (a ^^^ b) with h | h
      · exact h
      · exact absurd (hx.mp h) (by simp [ha, hb])
    rw [crcStep_eq, crcStep_eq, crcStep_eq, if_neg (by omega), if_pos ha,
      if_pos hb, Nat.xor_div_two, xor_cancel_pair]

theorem crcStep_iter_xor (k a b : Nat) :
    crcStep^[k] (a ^^^ b) = crcStep^[k] a ^^^ crcStep^[k] b := by
  induction k generalizing a b with
  | zero => rfl
  | succ k ih =>
    rw [Function.iterate_succ_apply, Function.iterate_succ_apply,
      Function.iterate_succ_apply, crcStep_xor, ih]

theorem crcStep_iter_decompose (k : Nat) : ∀ x : Nat,
    crcStep^[k] x = (x >>> k) ^^^ crcStep^[k] (x % 2 ^ k) := by
  induction k with
  | zero =>
    intro x
    simp [Nat.mod_one]
  | succ k ih =>
    intro x
    have hdvd : (2 : Nat) ∣ 2 ^ (k + 1) := dvd_pow_self 2 (Nat.succ_ne_zero k)
    have hx2 : x % 2 ^ (k + 1) % 2 = x % 2 := Nat.mod_mod_of_dvd x hdvd
    have hshift : (x / 2) >>> k = x >>> (k + 1) := by
      rw [Nat.shiftRight_eq_div_pow, Nat.shiftRight_eq_div_pow,
        Nat.div_div_eq_div_mul]
      congr 1
      rw [pow_succ]
      ring
    have hmoddiv : x / 2 % 2 ^ k = x % 2 ^ (k + 1) / 2 := by
      have h := Nat.mod_mul_right_div_self x 2 (2 ^ k)
      rw [← h]
      congr 2
      rw [pow_succ]
      ring
    rw [Function.iterate_succ_apply, Function.iterate_succ_apply]
    rcases Nat.mod_two_eq_zero_or_one x with hx | hx
    · rw [crcStep_eq x, crcStep_eq (x % 2 ^ (k + 1))]
      simp only [hx, hx2, Nat.zero_ne_one, if_false]
      rw [ih (x / 2), hshift, hmoddiv]
    · rw [crcStep_eq x, crcStep_eq (x % 2 ^ (k + 1))]
      simp only [hx, hx2, if_true]
      rw [crcStep_iter_xor, crcStep_iter_xor, ih (x / 2), hshift, hmoddiv,
        Nat.xor_assoc]

theorem crc_byte_table (c b : Nat) (hb : b < 256) :
    (c >>> 8) ^^^ crcTable ((c ^^^ b) &&& 0xFF) = crcStep^[8] (c ^^^ b) := by
  have h255 : (c ^^^ b) &&& 0xFF = (c ^^^ b) % 2 ^ 8 := by
    have h := Nat.and_pow_two_sub_one_eq_mod (c ^^^ b) 8
    norm_num at h ⊢
    exact h
  have hb8 : b >>> 8 = 0 := by
    rw [Nat.shiftRight_eq_div_pow]
    exact Nat.div_eq_of_lt (by omega)
  rw [crcTable, h255, crcStep_iter_decompose 8 (c ^^^ b), xor_shiftRightN, hb8,
    Nat.xor_zero]

theorem crc32_update_eq_bitwise (data : Str) :
    ∀ crc, (∀ ch ∈ data, ch.toNat < 256) →
      ChecksumValidator.crc32_update crc data =
        data.foldl (fun c ch => crcStep^[8] (c ^^^ ch.toNat)) crc := by
  induction data with
  | nil => intro crc _; rfl
  | cons ch rest ih =>
    intro crc hall
    unfold ChecksumValidator.crc32_update
    rw [List.foldl_cons, List.foldl_cons,
      crc_byte_table crc ch.toNat (hall ch (List.mem_cons_self ch rest))]
    exact ih _ (fun x hx => hall x (List.mem_cons_of_mem _ hx))

/-! ### The formatter only emits ASCII characters -/

theorem digitChar48_toNat (d : Nat) (hd : d < 10) : (digitChar48 d).toNat < 256 := by
  interval_cases d <;> decide

theorem natDigitsCore_ascii (fuel : Nat) : ∀ n acc,
    (∀ ch ∈ acc, ch.toNat < 256) →
    ∀ ch ∈ natDigitsCore fuel n acc, ch.toNat < 256 := by
  induction fuel with
  | zero => intro n acc hacc ch hch; exact hacc ch hch
  | succ fuel ih =>
    intro n acc hacc ch hch
    unfold natDigitsCore at hch
    by_cases hn : n < 10
    · rw [if_pos hn] at hch
      rcases List.mem_cons.mp hch with h | h
      · exact h ▸ digitChar48_toNat n hn
      · exact hacc ch h
    · rw [if_neg hn] at hch
      refine ih (n / 10) _ ?_ ch hch
      intro x hx
      rcases List.mem_cons.mp hx with h | h
      · exact h ▸ digitChar48_toNat _ (Nat.mod_lt _ (by omega))
      · exact hacc x h

theorem natDigits_ascii (n : Nat) : ∀ ch ∈ natDigits n, ch.toNat < 256 :=
  natDigitsCore_ascii (n + 1) n [] (by intro ch h; cases h)

theorem fmtFixedNonneg_ascii (prec : Nat) (x : ℚ) :
    ∀ ch ∈ fmtFixedNonneg prec x, ch.toNat < 256 := by
  intro ch hch
  unfold fmtFixedNonneg at hch
  rcases List.mem_append.mp hch with h | h
  · exact natDigits_ascii _ ch h
  · rcases List.mem_cons.mp h with h | h
    · subst h; decide
    · unfold padZeros at h
      rcases List.mem_append.mp h with h | h
      · have := List.eq_of_mem_replicate h
        subst this; decide
      · exact natDigits_ascii _ ch h

theorem fmtFixed_ascii (prec : Nat) (x : ℚ) :
    ∀ ch ∈ fmtFixed prec x, ch.toNat < 256 := by
  intro ch hch
  unfold fmtFixed at hch
  split at hch
  · rcases List.mem_cons.mp hch with h | h
    · subst h; decide
    · exact fmtFixedNonneg_ascii _ _ ch h
  · exact fmtFixedNonneg_ascii _ _ ch hch

theorem fmtLevel_ascii (l : PriceLevel) :
    ∀ ch ∈ ChecksumValidator.fmtLevel l, ch.toNat < 256 := by
  intro ch hch
  rcases List.mem_append.mp hch with h | h
  · exact fmtFixed_ascii _ _ ch h
  · exact fmtFixed_ascii _ _ ch h

theorem format_for_checksum_ascii (bids asks : List PriceLevel) :
    ∀ ch ∈ ChecksumValidator.format_for_checksum bids asks, ch.toNat < 256 := by
  intro ch hch
  unfold ChecksumValidator.format_for_checksum at hch
  rcases List.mem_append.mp hch with h | h <;>
  · rcases List.mem_flatten.mp h with ⟨l, hl, hchl⟩
    rcases List.mem_map.mp hl with ⟨lv, _, rfl⟩
    exact fmtLevel_ascii lv ch hchl

/-! ### C3: checksum input and hash -/

/-- C3 counterexample: with one bid level and two ask levels the code
hashes only min(10, min(1, 2)) = 1 level from each side, not the top ten
(here: all) levels of each side independently, so the checksum input is
not the claimed canonical encoding. -/
theorem checksum_input_counterexample :
    ChecksumValidator.format_for_checksum
        [⟨1, 1⟩] [⟨1, 1⟩, ⟨2, 1⟩] ≠
      checksumInputClaim [⟨1, 1⟩] [⟨1, 1⟩, ⟨2, 1⟩] := by
  decide

/-- C3 amended claim: the checksum input concatenates the first
n = min(10, min(bid count, ask count)) ask levels then the first n bid
levels, each rendered as fixed-precision decimal price and quantity; on
that input the table-driven hash agrees with the reflected-polynomial
0xEDB88320 CRC32 with initial value and final xor 0xFFFFFFFF, and
validate_checksum returns true exactly when that value equals the
announced checksum. -/
theorem checksum_spec_amended :
    (∀ bids asks : List PriceLevel,
      ChecksumValidator.format_for_checksum bids asks =
        checksumInputClaim
          (bids.take (min 10 (min bids.length asks.length)))
          (asks.take (min 10 (min bids.length asks.length)))) ∧
    (∀ bids asks : List PriceLevel,
      ChecksumValidator.calculate_crc32 bids asks =
        crc32_reflected (ChecksumValidator.format_for_checksum bids asks)) ∧
    (∀ (s : OrderBookState) (expected : Nat),
      s.validate_checksum expected = true ↔
        crc32_reflected
            (ChecksumValidator.format_for_checksum
              (s.get_top_bids 10) (s.get_top_asks 10)) = expected) := by
  have hfmt : ∀ bids asks : List PriceLevel,
      ChecksumValidator.format_for_checksum bids asks =
        checksumInputClaim
          (bids.take (min 10 (min bids.length asks.length)))
          (asks.take (min 10 (min bids.length asks.length))) := by
    intro bids asks
    unfold ChecksumValidator.format_for_checksum checksumInputClaim
    simp only [List.take_take]
    rw [Nat.min_eq_right (Nat.min_le_left 10 (min bids.length asks.length))]
  have hcrc : ∀ bids asks : List PriceLevel,
      ChecksumValidator.calculate_crc32 bids asks =
        crc32_reflected (ChecksumValidator.format_for_checksum bids asks) := by
    intro bids asks
    unfold ChecksumValidator.calculate_crc32 crc32_reflected
    rw [crc32_update_eq_bitwise _ _ (format_for_checksum_ascii bids asks)]
  refine ⟨hfmt, hcrc, ?_⟩
  intro s expected
  unfold OrderBookState.validate_checksum
  rw [hcrc]
  simp

/-! ### C10: validate on a one-sided or empty record -/

/-- C10 claim: ChecksumValidator::validate reports success for every
record whose bid list or ask list is empty, whatever the announced
checksum. -/
theorem validate_empty_side (r : OrderBookRecord)
    (h : r.bids = [] ∨ r.asks = []) : ChecksumValidator.validate r = true := by
  unfold ChecksumValidator.validate
  rcases h with h | h <;> simp [h]

/-- Witness for validate_empty_side: a bidless record with a checksum
value that cannot match any CRC is still accepted. -/
theorem validate_empty_side_witness :
    ChecksumValidator.validate ⟨"t", "BTC", "update", [], [⟨101, 2⟩], 123456⟩ = true :=
  validate_empty_side ⟨"t", "BTC", "update", [], [⟨101, 2⟩], 123456⟩ (Or.inl rfl)

/-! ### C7: inputs of no recognized form -/

/-- C7 counterexample: the input BTC is non-empty, contains no comma and
has neither the .txt nor the .csv suffix, yet the parser returns a
successful one-element inline list instead of an error. -/
theorem input_parse_unknown_counterexample :
    (cli.InputParser.parse (fun _ => none) (mkS "BTC") ',').success = true ∧
    (cli.InputParser.parse (fun _ => none) (mkS "BTC") ',').type =
      cli.InputType.DIRECT_LIST ∧
    (cli.InputParser.parse (fun _ => none) (mkS "BTC") ',').values = [mkS "BTC"] ∧
    mkS "BTC" ≠ [] ∧
    (mkS "BTC").contains ',' = false ∧
    cli.StringUtils.ends_with (mkS "BTC") (mkS ".txt") = false ∧
    cli.StringUtils.ends_with (mkS "BTC") (mkS ".csv") = false := by
  decide

/-- C7 amended claim: a non-empty input that is not recognized as a file
format (no .csv or .txt substring anywhere, no leading path marker) is
never an error of unknown form: it falls through to the inline-list
branch, whatever the file system contains, and succeeds exactly when
splitting on the delimiter, trimming and dropping empties leaves at
least one token. -/
theorem input_parse_fallback_spec (fs : cli.FileSystem) (input : Str)
    (delim : Char) (hne : input ≠ [])
    (hff : cli.InputParser.is_file_format input = false) :
    cli.InputParser.parse fs input delim =
      cli.InputParser.parse_direct_list input delim ∧
    ((cli.InputParser.parse fs input delim).success = true ↔
      cli.ListParser.parse input delim ≠ []) := by
  have h1 : cli.InputParser.parse fs input delim =
      cli.InputParser.parse_direct_list input delim := by
    unfold cli.InputParser.parse
    rw [if_neg hne, if_neg (by simp [hff])]
  refine ⟨h1, ?_⟩
  rw [h1]
  unfold cli.InputParser.parse_direct_list
  by_cases hv : cli.ListParser.parse input delim = []
  · simp [hv]
  · simp [hv]

/-- Witness for input_parse_fallback_spec at a concrete inline list. -/
theorem input_parse_fallback_spec_witness :
    cli.InputParser.parse (fun _ => none) (mkS "BTC/USD,ETH/USD") ',' =
      cli.InputParser.parse_direct_list (mkS "BTC/USD,ETH/USD") ',' :=
  (input_parse_fallback_spec (fun _ => none) (mkS "BTC/USD,ETH/USD") ','
    (by decide) (by decide)).1

/-! ### C8: timestamp parsing is local-time dependent -/

/-- C8: the snapshotter parses the record timestamp with mktime, so the
fields are interpreted in the local time zone, not as UTC: on a machine
whose zone is UTC+01:00 the string 2024-01-01 00:00:00.000 parses to
1704063600, one hour before the 1704067200 the UTC interpretation
gives, so the result depends on the time zone. -/
theorem parse_timestamp_tz_dependent :
    parse_timestamp 3600 (mkS "2024-01-01 00:00:00.000") = some (1704063600, 0) ∧
    parse_timestamp 0 (mkS "2024-01-01 00:00:00.000") = some (1704067200, 0) ∧
    parse_timestamp 3600 (mkS "2024-01-01 00:00:00.000") ≠
      parse_timestamp 0 (mkS "2024-01-01 00:00:00.000") := by
  decide

/-! ### C2: the modify counter counts attempted modifies -/

/-- C2 counterexample: one modify event for an id the empty book does
not hold is dropped, yet modify_count becomes 1, so the counter does
not count only successful applications. -/
theorem modify_count_counterexample :
    (Level3OrderBookState.apply_update (Level3OrderBookState.init "BTC")
        ⟨"t", "BTC", "update", [⟨"o9", 5, 1, "ts", "modify"⟩], [], 0⟩).modify_count
      = 1 ∧
    (Level3OrderBookState.apply_update (Level3OrderBookState.init "BTC")
        ⟨"t", "BTC", "update", [⟨"o9", 5, 1, "ts", "modify"⟩], [], 0⟩).orders_by_id
      = [] ∧
    (Level3OrderBookState.apply_update (Level3OrderBookState.init "BTC")
        ⟨"t", "BTC", "update", [⟨"o9", 5, 1, "ts", "modify"⟩], [], 0⟩).bids_by_price
      = [] := by
  decide

/-- C2 amended claim: a modify event whose order id is not in the id
index leaves the book state itself unchanged (the modify is dropped),
but modify_count increments on every modify event processed, successful
or not. -/
theorem modify_unknown_spec (s : Level3OrderBookState) (o : Level3Order)
    (is_bid : Bool) (hev : o.event = "modify")
    (hid : assocFind s.orders_by_id o.order_id = none) :
    applyL3Event is_bid s o = { s with modify_count := s.modify_count + 1 } := by
  unfold applyL3Event
  rw [if_neg (by simp [hev]), if_pos hev]
  unfold Level3OrderBookState.modify_order
  rw [hid]

/-- Witness for modify_unknown_spec on a concrete book. -/
theorem modify_unknown_spec_witness :
    applyL3Event true (Level3OrderBookState.init "BTC")
        ⟨"o9", 5, 1, "ts", "modify"⟩ =
      { Level3OrderBookState.init "BTC" with modify_count := 0 + 1 } :=
  modify_unknown_spec (Level3OrderBookState.init "BTC")
    ⟨"o9", 5, 1, "ts", "modify"⟩ true rfl rfl

/-! ### Association map lemmas for the Level 3 indices -/

section AssocLemmas

variable {α β : Type} [DecidableEq α]

theorem assocFind_set_self (m : List (α × β)) (k : α) (v : β) :
    assocFind (assocSet m k v) k = some v := by
  induction m with
  | nil => simp [assocSet, assocFind, List.find?]
  | cons kv rest ih =>
    obtain ⟨k1, v1⟩ := kv
    by_cases h : k1 = k
    · subst h
      simp [assocSet, assocFind, List.find?]
    · simpa [assocSet, assocFind, List.find?, h] using ih

theorem assocFind_set_ne (m : List (α × β)) (k : α) (v : β) (k' : α)
    (h : k' ≠ k) : assocFind (assocSet m k v) k' = assocFind m k' := by
  have h1 : ¬ k = k' := fun hh => h hh.symm
  induction m with
  | nil => simp [assocSet, assocFind, List.find?, h1]
  | cons kv rest ih =>
    obtain ⟨k1, v1⟩ := kv
    by_cases hk : k1 = k
    · subst hk
      simp [assocSet, assocFind, List.find?, h1]
    · by_cases hk' : k1 = k'
      · subst hk'
        simp [assocSet, assocFind, List.find?, hk]
      · simpa [assocSet, assocFind, List.find?, hk, hk'] using ih

theorem assocFind_mem {m : List (α × β)} {k : α} {v : β}
    (h : assocFind m k = some v) : (k, v) ∈ m := by
  unfold assocFind at h
  cases hf : m.find? (fun kv => decide (kv.1 = k)) with
  | none => rw [hf] at h; cases h
  | some kv =>
    rw [hf] at h
    have hv : kv.2 = v := by simpa using h
    have hk : kv.1 = k := by simpa using List.find?_some hf
    have hm := List.mem_of_find?_eq_some hf
    have : kv = (k, v) := by
      cases kv
      simp_all
    exact this ▸ hm

theorem assocFind_eq_none {m : List (α × β)} {k : α} :
    assocFind m k = none ↔ ∀ kv ∈ m, kv.1 ≠ k := by
  constructor
  · intro h kv hkv he
    unfold assocFind at h
    cases hf : m.find? (fun kv => decide (kv.1 = k)) with
    | none =>
      rw [List.find?_eq_none] at hf
      exact absurd (by simpa using he) (hf kv hkv)
    | some kv1 => rw [hf] at h; cases h
  · intro hall
    unfold assocFind
    cases hf : m.find? (fun kv => decide (kv.1 = k)) with
    | none => rfl
    | some kv1 =>
      have hk : kv1.1 = k := by simpa using List.find?_some hf
      exact absurd hk (hall kv1 (List.mem_of_find?_eq_some hf))

theorem assocFind_of_mem_nodup {m : List (α × β)} {k : α} {v : β}
    (hmem : (k, v) ∈ m) (hnd : (m.map Prod.fst).Nodup) :
    assocFind m k = some v := by
  induction m with
  | nil => cases hmem
  | cons kv rest ih =>
    obtain ⟨k1, v1⟩ := kv
    have hnd1 : k1 ∉ rest.map Prod.fst ∧ (rest.map Prod.fst).Nodup := by
      simpa using hnd
    rcases List.mem_cons.mp hmem with h | h
    · injection h with h1 h2
      subst h1
      subst h2
      simp [assocFind, List.find?]
    · have hk1 : k1 ≠ k := by
        intro he
        exact hnd1.1 (he ▸ List.mem_map_of_mem Prod.fst h)
      simpa [assocFind, List.find?, hk1] using ih h hnd1.2

theorem assocSet_absent {m : List (α × β)} {k : α} (v : β)
    (h : assocFind m k = none) : assocSet m k v = m ++ [(k, v)] := by
  induction m with
  | nil => rfl
  | cons kv rest ih =>
    obtain ⟨k1, v1⟩ := kv
    have hne : k1 ≠ k :=
      assocFind_eq_none.mp h (k1, v1) (List.mem_cons_self _ _)
    have hrest : assocFind rest k = none := by
      rw [assocFind_eq_none]
      exact fun kv hkv => assocFind_eq_none.mp h kv (List.mem_cons_of_mem _ hkv)
    simp [assocSet, hne, ih hrest]

theorem assocSet_mem {m : List (α × β)} {k : α} {v : β} {kv : α × β}
    (h : kv ∈ assocSet m k v) : kv ∈ m ∨ kv = (k, v) := by
  induction m with
  | nil => simpa [assocSet] using h
  | cons kv1 rest ih =>
    obtain ⟨k1, v1⟩ := kv1
    by_cases hk : k1 = k
    · subst hk
      rcases List.mem_cons.mp (by simpa [assocSet] using h) with h1 | h1
      · exact Or.inr h1
      · exact Or.inl (List.mem_cons_of_mem _ h1)
    · rcases List.mem_cons.mp (by simpa [assocSet, hk] using h) with h1 | h1
      · exact Or.inl (h1 ▸ List.mem_cons_self _ _)
      · rcases ih h1 with h2 | h2
        · exact Or.inl (List.mem_cons_of_mem _ h2)
        · exact Or.inr h2

theorem assocSet_keys_present {m : List (α × β)} {k : α} {w : β} (v : β)
    (h : assocFind m k = some w) :
    (assocSet m k v).map Prod.fst = m.map Prod.fst := by
  induction m with
  | nil => cases h
  | cons kv rest ih =>
    obtain ⟨k1, v1⟩ := kv
    by_cases hk : k1 = k
    · subst hk
      simp [assocSet]
    · have hrest : assocFind rest k = some w := by
        simpa [assocFind, List.find?, hk] using h
      simp [assocSet, hk, ih hrest]

theorem assocErase_sublist (m : List (α × β)) (k : α) :
    (assocErase m k).Sublist m := List.filter_sublist m

theorem assocErase_mem {m : List (α × β)} {k : α} {kv : α × β} :
    kv ∈ assocErase m k ↔ kv ∈ m ∧ kv.1 ≠ k := by
  unfold assocErase
  simp [List.mem_filter]

theorem assocErase_length {m : List (α × β)} {k : α} {v : β}
    (hnd : (m.map Prod.fst).Nodup) (h : assocFind m k = some v) :
    (assocErase m k).length + 1 = m.length := by
  induction m with
  | nil => cases h
  | cons kv rest ih =>
    obtain ⟨k1, v1⟩ := kv
    have hnd1 : k1 ∉ rest.map Prod.fst ∧ (rest.map Prod.fst).Nodup := by
      simpa using hnd
    by_cases hk : k1 = k
    · subst hk
      have hall : ∀ kv ∈ rest, kv.1 ≠ k1 := by
        intro kv hkv he
        exact hnd1.1 (he ▸ List.mem_map_of_mem Prod.fst hkv)
      have hid : assocErase rest k1 = rest := by
        unfold assocErase
        exact List.filter_eq_self.mpr (fun kv hkv => by simpa using hall kv hkv)
      simp [assocErase, hid]
      simpa [assocErase] using congrArg List.length hid
    · have hrest : assocFind rest k = some v := by
        simpa [assocFind, List.find?, hk] using h
      simpa [assocErase, hk] using ih hnd1.2 hrest

theorem assocFind_erase_ne {α β : Type} [DecidableEq α] (m : List (α × β))
    (k k' : α) (h : k' ≠ k) : assocFind (assocErase m k) k' = assocFind m k' := by
  induction m with
  | nil => rfl
  | cons kv rest ih =>
    obtain ⟨k1, v1⟩ := kv
    by_cases hk : k1 = k
    · subst hk
      have h1 : ¬ k1 = k' := fun hh => h hh.symm
      simpa [assocErase, assocFind, List.find?, h1] using ih
    · by_cases hk' : k1 = k'
      · subst hk'
        simp [assocErase, assocFind, List.find?, hk]
      · simpa [assocErase, assocFind, List.find?, hk, hk'] using ih

theorem assocFind_none_not_key {α β : Type} [DecidableEq α]
    {m : List (α × β)} {k : α} (h : assocFind m k = none) :
    k ∉ m.map Prod.fst := by
  intro hmem
  rcases List.mem_map.mp hmem with ⟨kv, hkv, he⟩
  exact assocFind_eq_none.mp h kv hkv he

end AssocLemmas

/-! ### Reference multiset lemmas for the price indices -/

theorem refsOfIdx_cons (k : ℚ) (l : List Nat) (rest : List (ℚ × List Nat)) :
    refsOfIdx ((k, l) :: rest) = l ++ refsOfIdx rest := by
  simp [refsOfIdx]

theorem refsOfIdx_append (a b : List (ℚ × List Nat)) :
    refsOfIdx (a ++ b) = refsOfIdx a ++ refsOfIdx b := by
  simp [refsOfIdx]

theorem refsOfIdx_length (idx : List (ℚ × List Nat)) :
    (refsOfIdx idx).length = totalRefs idx := by
  unfold refsOfIdx totalRefs
  rw [List.length_flatten, List.map_map]
  rfl

theorem mem_refsOfIdx_of_memAtLevel {idx : List (ℚ × List Nat)} {p : ℚ} {r : Nat}
    (h : memAtLevel idx p r) : r ∈ refsOfIdx idx := by
  obtain ⟨lst, hfind, hmem⟩ := h
  exact List.mem_flatten.mpr
    ⟨lst, List.mem_map_of_mem (fun kv => kv.2) (assocFind_mem hfind), hmem⟩

theorem refs_set_ms {idx : List (ℚ × List Nat)} {p : ℚ} {lst : List Nat}
    (hf : assocFind idx p = some lst) (newlst : List Nat) :
    ((refsOfIdx (assocSet idx p newlst) : Multiset Nat) + ↑lst) =
      (refsOfIdx idx : Multiset Nat) + ↑newlst := by
  induction idx with
  | nil => cases hf
  | cons kv rest ih =>
    obtain ⟨k, l⟩ := kv
    by_cases hk : k = p
    · subst hk
      have hl : l = lst := by simpa [assocFind, List.find?] using hf
      subst hl
      rw [show assocSet ((k, l) :: rest) k newlst = (k, newlst) :: rest by
        simp [assocSet]]
      rw [refsOfIdx_cons, refsOfIdx_cons, ← Multiset.coe_add, ← Multiset.coe_add]
      simp only [add_comm, add_left_comm, add_assoc]
    · have hfr : assocFind rest p = some lst := by
        simpa [assocFind, List.find?, hk] using hf
      rw [show assocSet ((k, l) :: rest) p newlst = (k, l) :: assocSet rest p newlst by
        simp [assocSet, hk]]
      rw [refsOfIdx_cons, refsOfIdx_cons, ← Multiset.coe_add, ← Multiset.coe_add,
        add_assoc, add_assoc, ih hfr]

theorem refs_add_ms (idx : List (ℚ × List Nat)) (p : ℚ) (r : Nat) :
    (refsOfIdx (addToPriceIndex idx p r) : Multiset Nat) =
      (refsOfIdx idx : Multiset Nat) + {r} := by
  unfold addToPriceIndex
  cases hf : assocFind idx p with
  | none =>
    simp only [Option.getD_none, List.nil_append]
    rw [assocSet_absent _ hf, refsOfIdx_append]
    rw [← Multiset.coe_add]
    simp [refsOfIdx]
  | some lst =>
    simp only [Option.getD_some]
    have h := refs_set_ms hf (lst ++ [r])
    have h' : ((refsOfIdx (assocSet idx p (lst ++ [r])) : Multiset Nat) + ↑lst) =
        ((refsOfIdx idx : Multiset Nat) + {r}) + ↑lst := by
      rw [h, ← Multiset.coe_singleton r, ← Multiset.coe_add lst [r]]
      simp [add_comm, add_left_comm, add_assoc]
    exact add_right_cancel h'

theorem refs_eraseLevel_ms {idx : List (ℚ × List Nat)} {p : ℚ} {lst : List Nat}
    (hnd : (idx.map Prod.fst).Nodup) (hf : assocFind idx p = some lst) :
    ((refsOfIdx (assocErase idx p) : Multiset Nat) + ↑lst) =
      (refsOfIdx idx : Multiset Nat) := by
  induction idx with
  | nil => cases hf
  | cons kv rest ih =>
    obtain ⟨k, l⟩ := kv
    have hnd1 : k ∉ rest.map Prod.fst ∧ (rest.map Prod.fst).Nodup := by
      simpa using hnd
    by_cases hk : k = p
    · subst hk
      have hl : l = lst := by simpa [assocFind, List.find?] using hf
      subst hl
      have hall : ∀ kv ∈ rest, kv.1 ≠ k := by
        intro kv hkv he
        exact hnd1.1 (he ▸ List.mem_map_of_mem Prod.fst hkv)
      have hid : assocErase rest k = rest := by
        unfold assocErase
        exact List.filter_eq_self.mpr (fun kv hkv => by simpa using hall kv hkv)
      have hstep : assocErase ((k, l) :: rest) k = rest := by
        unfold assocErase at hid ⊢
        rw [List.filter_cons]
        simpa using hid
      rw [hstep, refsOfIdx_cons, ← Multiset.coe_add]
      exact add_comm _ _
    · have hfr : assocFind rest p = some lst := by
        simpa [assocFind, List.find?, hk] using hf
      have hstep : assocErase ((k, l) :: rest) p = (k, l) :: assocErase rest p := by
        unfold assocErase
        rw [List.filter_cons]
        simp [hk]
      rw [hstep, refsOfIdx_cons, refsOfIdx_cons, ← Multiset.coe_add,
        ← Multiset.coe_add, add_assoc, ih hnd1.2 hfr]

theorem removeFromPriceIndex_eq_of_none {idx : List (ℚ × List Nat)} {p : ℚ}
    (r : Nat) (hf : assocFind idx p = none) :
    removeFromPriceIndex idx p r = idx := by
  unfold removeFromPriceIndex
  rw [hf]

theorem removeFromPriceIndex_eq_of_find {idx : List (ℚ × List Nat)} {p : ℚ}
    {lst : List Nat} (r : Nat) (hf : assocFind idx p = some lst) :
    removeFromPriceIndex idx p r =
      if lst.filter (fun x => decide (x ≠ r)) = [] then assocErase idx p
      else assocSet idx p (lst.filter (fun x => decide (x ≠ r))) := by
  unfold removeFromPriceIndex
  rw [hf]

theorem filter_ne_append_self {lst : List Nat} {r : Nat} (hlst : lst.Nodup)
    (hr : r ∈ lst) : (lst.filter (fun x => decide (x ≠ r)) ++ [r]).Perm lst := by
  have hfiltr : lst.filter (fun x => !decide (x ≠ r)) = [r] := by
    have hfn : (fun x : Nat => !decide (x ≠ r)) = (fun x : Nat => decide (x = r)) := by
      funext x
      by_cases hx : x = r <;> simp [hx]
    rw [hfn]
    have hc := List.count_eq_one_of_mem hlst hr
    have he := List.filter_eq lst r
    rw [hc, List.replicate_one] at he
    simpa using he
  have h2 := List.filter_append_perm (fun x => decide (x ≠ r)) lst
  rw [hfiltr] at h2
  exact h2

theorem refs_remove_ms {idx : List (ℚ × List Nat)} {p : ℚ} {r : Nat}
    {lst : List Nat} (hnd : (idx.map Prod.fst).Nodup)
    (hf : assocFind idx p = some lst) (hlst : lst.Nodup) (hr : r ∈ lst) :
    ((refsOfIdx (removeFromPriceIndex idx p r) : Multiset Nat) + {r}) =
      (refsOfIdx idx : Multiset Nat) := by
  have hcoe : ((lst.filter (fun x => decide (x ≠ r)) : Multiset Nat) + {r}) =
      (lst : Multiset Nat) := by
    rw [← Multiset.coe_singleton r, Multiset.coe_add]
    exact Multiset.coe_eq_coe.mpr (filter_ne_append_self hlst hr)
  rw [removeFromPriceIndex_eq_of_find r hf]
  by_cases hempty : lst.filter (fun x => decide (x ≠ r)) = []
  · rw [if_pos hempty]
    have herase := refs_eraseLevel_ms hnd hf
    have hsing : ({r} : Multiset Nat) = (lst : Multiset Nat) := by
      rw [← hcoe, hempty]
      simp
    rw [hsing, herase]
  · rw [if_neg hempty]
    have hset := refs_set_ms hf (lst.filter (fun x => decide (x ≠ r)))
    have h3 : (((refsOfIdx (assocSet idx p (lst.filter (fun x => decide (x ≠ r))))
          : Multiset Nat) + {r}) + ↑(lst.filter (fun x => decide (x ≠ r)))) =
        ((refsOfIdx idx : Multiset Nat) + ↑(lst.filter (fun x => decide (x ≠ r)))) := by
      rw [add_assoc,
        add_comm ({r} : Multiset Nat)
          ((lst.filter (fun x => decide (x ≠ r)) : Multiset Nat)),
        hcoe, hset]
    exact add_right_cancel h3

theorem memAtLevel_add_self (idx : List (ℚ × List Nat)) (p : ℚ) (r : Nat) :
    memAtLevel (addToPriceIndex idx p r) p r := by
  unfold addToPriceIndex memAtLevel
  exact ⟨(assocFind idx p).getD [] ++ [r], assocFind_set_self idx p _, by simp⟩

theorem memAtLevel_add_of (idx : List (ℚ × List Nat)) (p : ℚ) (r : Nat)
    {p' : ℚ} {r' : Nat} (h : memAtLevel idx p' r') :
    memAtLevel (addToPriceIndex idx p r) p' r' := by
  obtain ⟨lst', hfind, hmem⟩ := h
  unfold addToPriceIndex memAtLevel
  by_cases hp : p' = p
  · subst hp
    refine ⟨(assocFind idx p').getD [] ++ [r], assocFind_set_self idx p' _, ?_⟩
    rw [hfind]
    exact List.mem_append_left _ hmem
  · exact ⟨lst', by rw [assocFind_set_ne _ _ _ _ hp]; exact hfind, hmem⟩

theorem memAtLevel_remove_of {idx : List (ℚ × List Nat)} {p : ℚ} {r : Nat}
    {p' : ℚ} {r' : Nat} (hne : r' ≠ r) (h : memAtLevel idx p' r') :
    memAtLevel (removeFromPriceIndex idx p r) p' r' := by
  obtain ⟨lst', hfind, hmem⟩ := h
  cases hf : assocFind idx p with
  | none => exact ⟨lst', by rw [removeFromPriceIndex_eq_of_none r hf]; exact hfind, hmem⟩
  | some lst =>
    rw [removeFromPriceIndex_eq_of_find r hf]
    by_cases hp : p' = p
    · subst hp
      have hsame : lst = lst' := by
        rw [hf] at hfind
        injection hfind
      subst hsame
      have hmem1 : r' ∈ lst.filter (fun x => decide (x ≠ r)) :=
        List.mem_filter.mpr ⟨hmem, by simpa using hne⟩
      rw [if_neg (List.ne_nil_of_mem hmem1)]
      exact ⟨_, assocFind_set_self idx p' _, hmem1⟩
    · by_cases hempty : lst.filter (fun x => decide (x ≠ r)) = []
      · rw [if_pos hempty]
        exact ⟨lst', by rw [assocFind_erase_ne _ _ _ hp]; exact hfind, hmem⟩
      · rw [if_neg hempty]
        exact ⟨lst', by rw [assocFind_set_ne _ _ _ _ hp]; exact hfind, hmem⟩

theorem keys_add_nodup {idx : List (ℚ × List Nat)} (p : ℚ) (r : Nat)
    (hnd : (idx.map Prod.fst).Nodup) :
    ((addToPriceIndex idx p r).map Prod.fst).Nodup := by
  unfold addToPriceIndex
  cases hf : assocFind idx p with
  | some lst =>
    rw [assocSet_keys_present _ hf]
    exact hnd
  | none =>
    rw [assocSet_absent _ hf, List.map_append]
    rw [List.nodup_append]
    exact ⟨hnd, List.nodup_singleton _,
      by simpa [List.disjoint_singleton] using assocFind_none_not_key hf⟩

theorem keys_remove_nodup {idx : List (ℚ × List Nat)} (p : ℚ) (r : Nat)
    (hnd : (idx.map Prod.fst).Nodup) :
    ((removeFromPriceIndex idx p r).map Prod.fst).Nodup := by
  cases hf : assocFind idx p with
  | none =>
    rw [removeFromPriceIndex_eq_of_none r hf]
    exact hnd
  | some lst =>
    rw [removeFromPriceIndex_eq_of_find r hf]
    by_cases hempty : lst.filter (fun x => decide (x ≠ r)) = []
    · rw [if_pos hempty]
      exact List.Nodup.sublist (List.Sublist.map _ (assocErase_sublist idx p)) hnd
    · rw [if_neg hempty]
      rw [assocSet_keys_present _ hf]
      exact hnd

/-! ### Invariant preservation of the Level 3 operations -/

theorem inv_counts {s : Level3OrderBookState} (a m d : Nat) (h : L3Inv s) :
    L3Inv { s with add_count := a, modify_count := m, delete_count := d } :=
  ⟨h.idNodup, h.refNodup, h.allNodup, h.heapNodup, h.heapFresh, h.idFresh,
   h.bidKeysNodup, h.askKeysNodup, h.located, h.refsCovered⟩

theorem clear_inv {s : Level3OrderBookState} (h : L3Inv s) :
    L3Inv s.clear_all_orders :=
  ⟨by simp [Level3OrderBookState.clear_all_orders],
   by simp [Level3OrderBookState.clear_all_orders],
   by simp [allRefs, refsOfIdx, Level3OrderBookState.clear_all_orders],
   h.heapNodup, h.heapFresh, by simp [Level3OrderBookState.clear_all_orders],
   by simp [Level3OrderBookState.clear_all_orders],
   by simp [Level3OrderBookState.clear_all_orders],
   by simp [Level3OrderBookState.clear_all_orders],
   by simp [allRefs, refsOfIdx, Level3OrderBookState.clear_all_orders]⟩

theorem init_inv (sym : String) : L3Inv (Level3OrderBookState.init sym) :=
  ⟨by simp [Level3OrderBookState.init],
   by simp [Level3OrderBookState.init],
   by simp [allRefs, refsOfIdx, Level3OrderBookState.init],
   by simp [Level3OrderBookState.init], by simp [Level3OrderBookState.init],
   by simp [Level3OrderBookState.init], by simp [Level3OrderBookState.init],
   by simp [Level3OrderBookState.init], by simp [Level3OrderBookState.init],
   by simp [allRefs, refsOfIdx, Level3OrderBookState.init]⟩

theorem add_order_inv {s : Level3OrderBookState} {o : Level3Order} (is_bid : Bool)
    (h : L3Inv s) (hfresh : assocFind s.orders_by_id o.order_id = none) :
    L3Inv (s.add_order o is_bid) := by
  have f2 : o.order_id ∉ s.orders_by_id.map Prod.fst := assocFind_none_not_key hfresh
  have f1 : s.next_ref ∉ s.orders_by_id.map Prod.snd := by
    intro hmem
    rcases List.mem_map.mp hmem with ⟨kv, hkv, he⟩
    exact absurd (he ▸ h.idFresh kv hkv) (lt_irrefl _)
  have f3 : s.next_ref ∉ allRefs s := by
    intro hmem
    rcases h.refsCovered _ hmem with ⟨kv, hkv, he⟩
    exact absurd (he ▸ h.idFresh kv hkv) (lt_irrefl _)
  have f4 : assocFind s.heap s.next_ref = none := by
    rw [assocFind_eq_none]
    intro kv hkv he
    exact absurd (he ▸ h.heapFresh kv hkv) (lt_irrefl _)
  have hby : (s.add_order o is_bid).orders_by_id =
      s.orders_by_id ++ [(o.order_id, s.next_ref)] := by
    unfold Level3OrderBookState.add_order
    cases is_bid <;> simp [assocSet_absent _ hfresh]
  have hheap' : (s.add_order o is_bid).heap =
      assocSet s.heap s.next_ref
        ⟨o.order_id, o.limit_price, o.order_qty, o.timestamp⟩ := by
    unfold Level3OrderBookState.add_order
    cases is_bid <;> rfl
  have hheap : (s.add_order o is_bid).heap =
      s.heap ++ [(s.next_ref,
        ⟨o.order_id, o.limit_price, o.order_qty, o.timestamp⟩)] := by
    rw [hheap', assocSet_absent _ f4]
  have hnext : (s.add_order o is_bid).next_ref = s.next_ref + 1 := by
    unfold Level3OrderBookState.add_order
    cases is_bid <;> rfl
  have hidn : (s.orders_by_id.map Prod.fst ++ [o.order_id]).Nodup := by
    rw [List.nodup_append]
    exact ⟨h.idNodup, List.nodup_singleton _,
      by simpa [List.disjoint_singleton] using f2⟩
  have hrefn : (s.orders_by_id.map Prod.snd ++ [s.next_ref]).Nodup := by
    rw [List.nodup_append]
    exact ⟨h.refNodup, List.nodup_singleton _,
      by simpa [List.disjoint_singleton] using f1⟩
  have hheapn : ((s.add_order o is_bid).heap.map Prod.fst).Nodup := by
    rw [hheap, List.map_append, List.nodup_append]
    exact ⟨h.heapNodup, List.nodup_singleton _,
      by simpa [List.disjoint_singleton] using assocFind_none_not_key f4⟩
  have hheapf : ∀ kv ∈ (s.add_order o is_bid).heap,
      kv.1 < (s.add_order o is_bid).next_ref := by
    intro kv hkv
    rw [hheap] at hkv
    rw [hnext]
    rcases List.mem_append.mp hkv with hold | hnew
    · exact Nat.lt_succ_of_lt (h.heapFresh kv hold)
    · rw [List.mem_singleton.mp hnew]
      exact Nat.lt_succ_self _
  have hidf : ∀ kv ∈ (s.add_order o is_bid).orders_by_id,
      kv.2 < (s.add_order o is_bid).next_ref := by
    intro kv hkv
    rw [hby] at hkv
    rw [hnext]
    rcases List.mem_append.mp hkv with hold | hnew
    · exact Nat.lt_succ_of_lt (h.idFresh kv hold)
    · rw [List.mem_singleton.mp hnew]
      exact Nat.lt_succ_self _
  cases is_bid with
  | true =>
    have hbids : (s.add_order o true).bids_by_price =
        addToPriceIndex s.bids_by_price o.limit_price s.next_ref := rfl
    have hasks : (s.add_order o true).asks_by_price = s.asks_by_price := rfl
    have hms : (allRefs (s.add_order o true) : Multiset Nat) =
        (allRefs s : Multiset Nat) + {s.next_ref} := by
      unfold allRefs
      rw [hbids, hasks, ← Multiset.coe_add, ← Multiset.coe_add, refs_add_ms]
      simp only [add_comm, add_left_comm, add_assoc]
    refine ⟨?_, ?_, ?_, hheapn, hheapf, hidf, ?_, ?_, ?_, ?_⟩
    · rw [hby, List.map_append]
      exact hidn
    · rw [hby, List.map_append]
      exact hrefn
    · have hnd : (allRefs (s.add_order o true) : Multiset Nat).Nodup := by
        rw [hms, Multiset.nodup_add]
        exact ⟨Multiset.coe_nodup.mpr h.allNodup, Multiset.nodup_singleton _,
          Multiset.disjoint_singleton.mpr (by simpa [Multiset.mem_coe] using f3)⟩
      exact Multiset.coe_nodup.mp hnd
    · rw [hbids]
      exact keys_add_nodup _ _ h.bidKeysNodup
    · rw [hasks]
      exact h.askKeysNodup
    · intro kv hkv
      rw [hby] at hkv
      rcases List.mem_append.mp hkv with hold | hnew
      · obtain ⟨ord, hord, hside⟩ := h.located kv hold
        have hne : kv.2 ≠ s.next_ref := Nat.ne_of_lt (h.idFresh kv hold)
        refine ⟨ord, ?_, ?_⟩
        · rw [hheap', assocFind_set_ne _ _ _ _ hne]
          exact hord
        · rcases hside with hb | ha
          · exact Or.inl (by rw [hbids]; exact memAtLevel_add_of _ _ _ hb)
          · exact Or.inr (by rw [hasks]; exact ha)
      · rw [List.mem_singleton.mp hnew]
        refine ⟨⟨o.order_id, o.limit_price, o.order_qty, o.timestamp⟩, ?_, Or.inl ?_⟩
        · rw [hheap']
          exact assocFind_set_self _ _ _
        · rw [hbids]
          exact memAtLevel_add_self _ _ _
    · intro x hx
      have hx' : x ∈ (allRefs (s.add_order o true) : Multiset Nat) :=
        Multiset.mem_coe.mpr hx
      rw [hms, Multiset.mem_add] at hx'
      rcases hx' with hold | hnew
      · rcases h.refsCovered x (Multiset.mem_coe.mp hold) with ⟨kv, hkv, he⟩
        exact ⟨kv, by rw [hby]; exact List.mem_append_left _ hkv, he⟩
      · refine ⟨(o.order_id, s.next_ref), ?_, (Multiset.mem_singleton.mp hnew).symm ▸ rfl⟩
        rw [hby]
        exact List.mem_append_right _ (List.mem_singleton.mpr rfl)
  | false =>
    have hbids : (s.add_order o false).bids_by_price = s.bids_by_price := rfl
    have hasks : (s.add_order o false).asks_by_price =
        addToPriceIndex s.asks_by_price o.limit_price s.next_ref := rfl
    have hms : (allRefs (s.add_order o false) : Multiset Nat) =
        (allRefs s : Multiset Nat) + {s.next_ref} := by
      unfold allRefs
      rw [hbids, hasks, ← Multiset.coe_add, ← Multiset.coe_add, refs_add_ms]
      simp only [add_comm, add_left_comm, add_assoc]
    refine ⟨?_, ?_, ?_, hheapn, hheapf, hidf, ?_, ?_, ?_, ?_⟩
    · rw [hby, List.map_append]
      exact hidn
    · rw [hby, List.map_append]
      exact hrefn
    · have hnd : (allRefs (s.add_order o false) : Multiset Nat).Nodup := by
        rw [hms, Multiset.nodup_add]
        exact ⟨Multiset.coe_nodup.mpr h.allNodup, Multiset.nodup_singleton _,
          Multiset.disjoint_singleton.mpr (by simpa [Multiset.mem_coe] using f3)⟩
      exact Multiset.coe_nodup.mp hnd
    · rw [hbids]
      exact h.bidKeysNodup
    · rw [hasks]
      exact keys_add_nodup _ _ h.askKeysNodup
    · intro kv hkv
      rw [hby] at hkv
      rcases List.mem_append.mp hkv with hold | hnew
      · obtain ⟨ord, hord, hside⟩ := h.located kv hold
        have hne : kv.2 ≠ s.next_ref := Nat.ne_of_lt (h.idFresh kv hold)
        refine ⟨ord, ?_, ?_⟩
        · rw [hheap', assocFind_set_ne _ _ _ _ hne]
          exact hord
        · rcases hside with hb | ha
          · exact Or.inl (by rw [hbids]; exact hb)
          · exact Or.inr (by rw [hasks]; exact memAtLevel_add_of _ _ _ ha)
      · rw [List.mem_singleton.mp hnew]
        refine ⟨⟨o.order_id, o.limit_price, o.order_qty, o.timestamp⟩, ?_, Or.inr ?_⟩
        · rw [hheap']
          exact assocFind_set_self _ _ _
        · rw [hasks]
          exact memAtLevel_add_self _ _ _
    · intro x hx
      have hx' : x ∈ (allRefs (s.add_order o false) : Multiset Nat) :=
        Multiset.mem_coe.mpr hx
      rw [hms, Multiset.mem_add] at hx'
      rcases hx' with hold | hnew
      · rcases h.refsCovered x (Multiset.mem_coe.mp hold) with ⟨kv, hkv, he⟩
        exact ⟨kv, by rw [hby]; exact List.mem_append_left _ hkv, he⟩
      · refine ⟨(o.order_id, s.next_ref), ?_, (Multiset.mem_singleton.mp hnew).symm ▸ rfl⟩
        rw [hby]
        exact List.mem_append_right _ (List.mem_singleton.mpr rfl)

theorem isBidOf_true {s : Level3OrderBookState} {p : ℚ} {r : Nat}
    (hmem : memAtLevel s.bids_by_price p r) : isBidOf s p r = true := by
  obtain ⟨lst, hfind, hm⟩ := hmem
  unfold isBidOf
  rw [hfind]
  simpa using hm

theorem isBidOf_false_of_ask {s : Level3OrderBookState} (h : L3Inv s) {p : ℚ}
    {r : Nat} (hmem : memAtLevel s.asks_by_price p r) : isBidOf s p r = false := by
  unfold isBidOf
  cases hf : assocFind s.bids_by_price p with
  | none => rfl
  | some lst =>
    have hno : r ∉ lst := by
      intro hr
      have hb : r ∈ refsOfIdx s.bids_by_price :=
        mem_refsOfIdx_of_memAtLevel ⟨lst, hf, hr⟩
      have ha : r ∈ refsOfIdx s.asks_by_price := mem_refsOfIdx_of_memAtLevel hmem
      exact (List.nodup_append.mp h.allNodup).2.2 hb ha
    simpa using hno

theorem nodup_level {idx : List (ℚ × List Nat)} (hnd : (refsOfIdx idx).Nodup)
    {p : ℚ} {lst : List Nat} (hf : assocFind idx p = some lst) : lst.Nodup := by
  have hmem : lst ∈ idx.map (fun kv => kv.2) :=
    List.mem_map_of_mem _ (assocFind_mem hf)
  exact (List.nodup_flatten.mp (by simpa [refsOfIdx] using hnd)).1 lst hmem

theorem modify_order_eq_bid {s : Level3OrderBookState} {id : String} {r : Nat}
    {ord : Order} (np nq : ℚ) (hid : assocFind s.orders_by_id id = some r)
    (hord : assocFind s.heap r = some ord)
    (hbid : isBidOf s ord.limit_price r = true) :
    s.modify_order id np nq = { s with
      heap := assocSet s.heap r { ord with limit_price := np, order_qty := nq },
      bids_by_price := addToPriceIndex
        (removeFromPriceIndex s.bids_by_price ord.limit_price r) np r } := by
  unfold Level3OrderBookState.modify_order
  rw [hid]
  simp [hord, hbid]

theorem modify_order_eq_ask {s : Level3OrderBookState} {id : String} {r : Nat}
    {ord : Order} (np nq : ℚ) (hid : assocFind s.orders_by_id id = some r)
    (hord : assocFind s.heap r = some ord)
    (hbid : isBidOf s ord.limit_price r = false) :
    s.modify_order id np nq = { s with
      heap := assocSet s.heap r { ord with limit_price := np, order_qty := nq },
      asks_by_price := addToPriceIndex
        (removeFromPriceIndex s.asks_by_price ord.limit_price r) np r } := by
  unfold Level3OrderBookState.modify_order
  rw [hid]
  simp [hord, hbid]

theorem delete_order_eq_bid {s : Level3OrderBookState} {id : String} {r : Nat}
    {ord : Order} (hid : assocFind s.orders_by_id id = some r)
    (hord : assocFind s.heap r = some ord)
    (hbid : isBidOf s ord.limit_price r = true) :
    s.delete_order id = { s with
      bids_by_price := removeFromPriceIndex s.bids_by_price ord.limit_price r,
      orders_by_id := assocErase s.orders_by_id id } := by
  unfold Level3OrderBookState.delete_order
  rw [hid]
  simp [hord, hbid]

theorem delete_order_eq_ask {s : Level3OrderBookState} {id : String} {r : Nat}
    {ord : Order} (hid : assocFind s.orders_by_id id = some r)
    (hord : assocFind s.heap r = some ord)
    (hbid : isBidOf s ord.limit_price r = false) :
    s.delete_order id = { s with
      asks_by_price := removeFromPriceIndex s.asks_by_price ord.limit_price r,
      orders_by_id := assocErase s.orders_by_id id } := by
  unfold Level3OrderBookState.delete_order
  rw [hid]
  simp [hord, hbid]

theorem modify_order_inv {s : Level3OrderBookState} (id : String) (np nq : ℚ)
    (h : L3Inv s) : L3Inv (s.modify_order id np nq) := by
  cases hid : assocFind s.orders_by_id id with
  | none =>
    have heq : s.modify_order id np nq = s := by
      unfold Level3OrderBookState.modify_order
      rw [hid]
    rw [heq]
    exact h
  | some r =>
    obtain ⟨ord, hord, hside⟩ := h.located (id, r) (assocFind_mem hid)
    have hrn : r < s.next_ref := h.idFresh (id, r) (assocFind_mem hid)
    rcases hside with hb | ha
    · -- the order sits on the bid side
      have hbid := isBidOf_true hb
      have heq := modify_order_eq_bid np nq hid hord hbid
      obtain ⟨lst, hlf, hrl⟩ := hb
      have hsidend : (refsOfIdx s.bids_by_price).Nodup :=
        (List.nodup_append.mp h.allNodup).1
      have hlstnd := nodup_level hsidend hlf
      have hbids' : (s.modify_order id np nq).bids_by_price =
          addToPriceIndex (removeFromPriceIndex s.bids_by_price ord.limit_price r)
            np r := by rw [heq]
      have hasks' : (s.modify_order id np nq).asks_by_price = s.asks_by_price := by
        rw [heq]
      have hheap2 : (s.modify_order id np nq).heap =
          assocSet s.heap r { ord with limit_price := np, order_qty := nq } := by
        rw [heq]
      have hby2 : (s.modify_order id np nq).orders_by_id = s.orders_by_id := by
        rw [heq]
      have hnext2 : (s.modify_order id np nq).next_ref = s.next_ref := by
        rw [heq]
      have hmsB : (refsOfIdx (addToPriceIndex
            (removeFromPriceIndex s.bids_by_price ord.limit_price r) np r)
            : Multiset Nat) = (refsOfIdx s.bids_by_price : Multiset Nat) := by
        rw [refs_add_ms]
        exact refs_remove_ms h.bidKeysNodup hlf hlstnd hrl
      have hmsAll : (allRefs (s.modify_order id np nq) : Multiset Nat) =
          (allRefs s : Multiset Nat) := by
        unfold allRefs
        rw [hbids', hasks', ← Multiset.coe_add, ← Multiset.coe_add, hmsB]
      refine ⟨?_, ?_, ?_, ?_, ?_, ?_, ?_, ?_, ?_, ?_⟩
      · rw [hby2]; exact h.idNodup
      · rw [hby2]; exact h.refNodup
      · exact ((Multiset.coe_eq_coe.mp hmsAll).symm.nodup h.allNodup)
      · rw [hheap2, assocSet_keys_present _ hord]
        exact h.heapNodup
      · intro kv hkv
        rw [hheap2] at hkv
        rw [hnext2]
        rcases assocSet_mem hkv with hold | hnew
        · exact h.heapFresh kv hold
        · rw [hnew]; exact hrn
      · intro kv hkv
        rw [hby2] at hkv
        rw [hnext2]
        exact h.idFresh kv hkv
      · rw [hbids']
        exact keys_add_nodup _ _ (keys_remove_nodup _ _ h.bidKeysNodup)
      · rw [hasks']; exact h.askKeysNodup
      · intro kv hkv
        rw [hby2] at hkv
        by_cases hkr : kv.2 = r
        · have hkv_eq : kv = (id, r) :=
            List.inj_on_of_nodup_map h.refNodup hkv (assocFind_mem hid)
              (by simpa using hkr)
          rw [hkv_eq]
          refine ⟨{ ord with limit_price := np, order_qty := nq }, ?_, Or.inl ?_⟩
          · rw [hheap2]
            exact assocFind_set_self _ _ _
          · rw [hbids']
            exact memAtLevel_add_self _ _ _
        · obtain ⟨ordk, hk, sidek⟩ := h.located kv hkv
          refine ⟨ordk, ?_, ?_⟩
          · rw [hheap2, assocFind_set_ne _ _ _ _ hkr]
            exact hk
          · rcases sidek with hsb | hsa
            · exact Or.inl (by
                rw [hbids']
                exact memAtLevel_add_of _ _ _ (memAtLevel_remove_of hkr hsb))
            · exact Or.inr (by rw [hasks']; exact hsa)
      · intro x hx
        have hxs : x ∈ allRefs s := by
          have hxm : x ∈ (allRefs (s.modify_order id np nq) : Multiset Nat) :=
            Multiset.mem_coe.mpr hx
          rw [hmsAll] at hxm
          exact Multiset.mem_coe.mp hxm
        rcases h.refsCovered x hxs with ⟨kv, hkv, he⟩
        exact ⟨kv, by rw [hby2]; exact hkv, he⟩
    · -- the order sits on the ask side
      have hbid := isBidOf_false_of_ask h ha
      have heq := modify_order_eq_ask np nq hid hord hbid
      obtain ⟨lst, hlf, hrl⟩ := ha
      have hsidend : (refsOfIdx s.asks_by_price).Nodup :=
        (List.nodup_append.mp h.allNodup).2.1
      have hlstnd := nodup_level hsidend hlf
      have hasks' : (s.modify_order id np nq).asks_by_price =
          addToPriceIndex (removeFromPriceIndex s.asks_by_price ord.limit_price r)
            np r := by rw [heq]
      have hbids' : (s.modify_order id np nq).bids_by_price = s.bids_by_price := by
        rw [heq]
      have hheap2 : (s.modify_order id np nq).heap =
          assocSet s.heap r { ord with limit_price := np, order_qty := nq } := by
        rw [heq]
      have hby2 : (s.modify_order id np nq).orders_by_id = s.orders_by_id := by
        rw [heq]
      have hnext2 : (s.modify_order id np nq).next_ref = s.next_ref := by
        rw [heq]
      have hmsB : (refsOfIdx (addToPriceIndex
            (removeFromPriceIndex s.asks_by_price ord.limit_price r) np r)
            : Multiset Nat) = (refsOfIdx s.asks_by_price : Multiset Nat) := by
        rw [refs_add_ms]
        exact refs_remove_ms h.askKeysNodup hlf hlstnd hrl
      have hmsAll : (allRefs (s.modify_order id np nq) : Multiset Nat) =
          (allRefs s : Multiset Nat) := by
        unfold allRefs
        rw [hbids', hasks', ← Multiset.coe_add, ← Multiset.coe_add, hmsB]
      refine ⟨?_, ?_, ?_, ?_, ?_, ?_, ?_, ?_, ?_, ?_⟩
      · rw [hby2]; exact h.idNodup
      · rw [hby2]; exact h.refNodup
      · exact ((Multiset.coe_eq_coe.mp hmsAll).symm.nodup h.allNodup)
      · rw [hheap2, assocSet_keys_present _ hord]
        exact h.heapNodup
      · intro kv hkv
        rw [hheap2] at hkv
        rw [hnext2]
        rcases assocSet_mem hkv with hold | hnew
        · exact h.heapFresh kv hold
        · rw [hnew]; exact hrn
      · intro kv hkv
        rw [hby2] at hkv
        rw [hnext2]
        exact h.idFresh kv hkv
      · rw [hbids']; exact h.bidKeysNodup
      · rw [hasks']
        exact keys_add_nodup _ _ (keys_remove_nodup _ _ h.askKeysNodup)
      · intro kv hkv
        rw [hby2] at hkv
        by_cases hkr : kv.2 = r
        · have hkv_eq : kv = (id, r) :=
            List.inj_on_of_nodup_map h.refNodup hkv (assocFind_mem hid)
              (by simpa using hkr)
          rw [hkv_eq]
          refine ⟨{ ord with limit_price := np, order_qty := nq }, ?_, Or.inr ?_⟩
          · rw [hheap2]
            exact assocFind_set_self _ _ _
          · rw [hasks']
            exact memAtLevel_add_self _ _ _
        · obtain ⟨ordk, hk, sidek⟩ := h.located kv hkv
          refine ⟨ordk, ?_, ?_⟩
          · rw [hheap2, assocFind_set_ne _ _ _ _ hkr]
            exact hk
          · rcases sidek with hsb | hsa
            · exact Or.inl (by rw [hbids']; exact hsb)
            · exact Or.inr (by
                rw [hasks']
                exact memAtLevel_add_of _ _ _ (memAtLevel_remove_of hkr hsa))
      · intro x hx
        have hxs : x ∈ allRefs s := by
          have hxm : x ∈ (allRefs (s.modify_order id np nq) : Multiset Nat) :=
            Multiset.mem_coe.mpr hx
          rw [hmsAll] at hxm
          exact Multiset.mem_coe.mp hxm
        rcases h.refsCovered x hxs with ⟨kv, hkv, he⟩
        exact ⟨kv, by rw [hby2]; exact hkv, he⟩

theorem delete_order_inv {s : Level3OrderBookState} (id : String)
    (h : L3Inv s) : L3Inv (s.delete_order id) := by
  cases hid : assocFind s.orders_by_id id with
  | none =>
    have heq : s.delete_order id = s := by
      unfold Level3OrderBookState.delete_order
      rw [hid]
    rw [heq]
    exact h
  | some r =>
    obtain ⟨ord, hord, hside⟩ := h.located (id, r) (assocFind_mem hid)
    have hby2' : ∀ kv, kv ∈ assocErase s.orders_by_id id ↔
        kv ∈ s.orders_by_id ∧ kv.1 ≠ id := fun kv => assocErase_mem
    have hbysub : (assocErase s.orders_by_id id).Sublist s.orders_by_id :=
      assocErase_sublist _ _
    rcases hside with hb | ha
    · have hbid := isBidOf_true hb
      have heq := delete_order_eq_bid hid hord hbid
      obtain ⟨lst, hlf, hrl⟩ := hb
      have hsidend : (refsOfIdx s.bids_by_price).Nodup :=
        (List.nodup_append.mp h.allNodup).1
      have hlstnd := nodup_level hsidend hlf
      have hbids' : (s.delete_order id).bids_by_price =
          removeFromPriceIndex s.bids_by_price ord.limit_price r := by rw [heq]
      have hasks' : (s.delete_order id).asks_by_price = s.asks_by_price := by
        rw [heq]
      have hheap2 : (s.delete_order id).heap = s.heap := by rw [heq]
      have hby2 : (s.delete_order id).orders_by_id =
          assocErase s.orders_by_id id := by rw [heq]
      have hnext2 : (s.delete_order id).next_ref = s.next_ref := by rw [heq]
      have hmsB : ((refsOfIdx (removeFromPriceIndex s.bids_by_price
            ord.limit_price r) : Multiset Nat) + {r}) =
          (refsOfIdx s.bids_by_price : Multiset Nat) :=
        refs_remove_ms h.bidKeysNodup hlf hlstnd hrl
      have hmsAll : ((allRefs (s.delete_order id) : Multiset Nat) + {r}) =
          (allRefs s : Multiset Nat) := by
        unfold allRefs
        rw [hbids', hasks', ← Multiset.coe_add, ← Multiset.coe_add, ← hmsB]
        simp only [add_comm, add_left_comm, add_assoc]
      have hallnd : (allRefs (s.delete_order id)).Nodup := by
        have hle : (allRefs (s.delete_order id) : Multiset Nat) ≤
            (allRefs s : Multiset Nat) := by
          rw [← hmsAll]
          exact Multiset.le_add_right _ _
        exact Multiset.coe_nodup.mp
          (Multiset.nodup_of_le hle (Multiset.coe_nodup.mpr h.allNodup))
      have hrnot : r ∉ allRefs (s.delete_order id) := by
        intro hmem
        have hnd : ((allRefs (s.delete_order id) : Multiset Nat) + {r}).Nodup := by
          rw [hmsAll]
          exact Multiset.coe_nodup.mpr h.allNodup
        rcases Multiset.nodup_add.mp hnd with ⟨-, -, hdisj⟩
        exact (Multiset.disjoint_singleton.mp hdisj) (Multiset.mem_coe.mpr hmem)
      refine ⟨?_, ?_, hallnd, ?_, ?_, ?_, ?_, ?_, ?_, ?_⟩
      · rw [hby2]
        exact List.Nodup.sublist (List.Sublist.map _ hbysub) h.idNodup
      · rw [hby2]
        exact List.Nodup.sublist (List.Sublist.map _ hbysub) h.refNodup
      · rw [hheap2]; exact h.heapNodup
      · intro kv hkv
        rw [hheap2] at hkv
        rw [hnext2]
        exact h.heapFresh kv hkv
      · intro kv hkv
        rw [hby2] at hkv
        rw [hnext2]
        exact h.idFresh kv (hbysub.mem hkv)
      · rw [hbids']
        exact keys_remove_nodup _ _ h.bidKeysNodup
      · rw [hasks']; exact h.askKeysNodup
      · intro kv hkv
        rw [hby2] at hkv
        obtain ⟨hkvm, hkne⟩ := (hby2' kv).mp hkv
        have hkr : kv.2 ≠ r := by
          intro he
          exact hkne (congrArg Prod.fst
            (List.inj_on_of_nodup_map h.refNodup hkvm (assocFind_mem hid)
              (by simpa using he)))
        obtain ⟨ordk, hk, sidek⟩ := h.located kv hkvm
        refine ⟨ordk, ?_, ?_⟩
        · rw [hheap2]; exact hk
        · rcases sidek with hsb | hsa
          · exact Or.inl (by rw [hbids']; exact memAtLevel_remove_of hkr hsb)
          · exact Or.inr (by rw [hasks']; exact hsa)
      · intro x hx
        have hxs : x ∈ allRefs s := by
          have hxm : x ∈ (allRefs s : Multiset Nat) := by
            rw [← hmsAll, Multiset.mem_add]
            exact Or.inl (Multiset.mem_coe.mpr hx)
          exact Multiset.mem_coe.mp hxm
        rcases h.refsCovered x hxs with ⟨kv, hkv, he⟩
        have hkne : kv.1 ≠ id := by
          intro hke
          have : kv = (id, r) :=
            List.inj_on_of_nodup_map h.idNodup hkv (assocFind_mem hid)
              (by simpa using hke)
          rw [this] at he
          have hxr : r = x := he
          exact hrnot (by rwa [← hxr] at hx)
        exact ⟨kv, by rw [hby2]; exact (hby2' kv).mpr ⟨hkv, hkne⟩, he⟩
    · have hbid := isBidOf_false_of_ask h ha
      have heq := delete_order_eq_ask hid hord hbid
      obtain ⟨lst, hlf, hrl⟩ := ha
      have hsidend : (refsOfIdx s.asks_by_price).Nodup :=
        (List.nodup_append.mp h.allNodup).2.1
      have hlstnd := nodup_level hsidend hlf
      have hasks' : (s.delete_order id).asks_by_price =
          removeFromPriceIndex s.asks_by_price ord.limit_price r := by rw [heq]
      have hbids' : (s.delete_order id).bids_by_price = s.bids_by_price := by
        rw [heq]
      have hheap2 : (s.delete_order id).heap = s.heap := by rw [heq]
      have hby2 : (s.delete_order id).orders_by_id =
          assocErase s.orders_by_id id := by rw [heq]
      have hnext2 : (s.delete_order id).next_ref = s.next_ref := by rw [heq]
      have hmsB : ((refsOfIdx (removeFromPriceIndex s.asks_by_price
            ord.limit_price r) : Multiset Nat) + {r}) =
          (refsOfIdx s.asks_by_price : Multiset Nat) :=
        refs_remove_ms h.askKeysNodup hlf hlstnd hrl
      have hmsAll : ((allRefs (s.delete_order id) : Multiset Nat) + {r}) =
          (allRefs s : Multiset Nat) := by
        unfold allRefs
        rw [hbids', hasks', ← Multiset.coe_add, ← Multiset.coe_add, ← hmsB]
        simp only [add_comm, add_left_comm, add_assoc]
      have hallnd : (allRefs (s.delete_order id)).Nodup := by
        have hle : (allRefs (s.delete_order id) : Multiset Nat) ≤
            (allRefs s : Multiset Nat) := by
          rw [← hmsAll]
          exact Multiset.le_add_right _ _
        exact Multiset.coe_nodup.mp
          (Multiset.nodup_of_le hle (Multiset.coe_nodup.mpr h.allNodup))
      have hrnot : r ∉ allRefs (s.delete_order id) := by
        intro hmem
        have hnd : ((allRefs (s.delete_order id) : Multiset Nat) + {r}).Nodup := by
          rw [hmsAll]
          exact Multiset.coe_nodup.mpr h.allNodup
        rcases Multiset.nodup_add.mp hnd with ⟨-, -, hdisj⟩
        exact (Multiset.disjoint_singleton.mp hdisj) (Multiset.mem_coe.mpr hmem)
      refine ⟨?_, ?_, hallnd, ?_, ?_, ?_, ?_, ?_, ?_, ?_⟩
      · rw [hby2]
        exact List.Nodup.sublist (List.Sublist.map _ hbysub) h.idNodup
      · rw [hby2]
        exact List.Nodup.sublist (List.Sublist.map _ hbysub) h.refNodup
      · rw [hheap2]; exact h.heapNodup
      · intro kv hkv
        rw [hheap2] at hkv
        rw [hnext2]
        exact h.heapFresh kv hkv
      · intro kv hkv
        rw [hby2] at hkv
        rw [hnext2]
        exact h.idFresh kv (hbysub.mem hkv)
      · rw [hbids']; exact h.bidKeysNodup
      · rw [hasks']
        exact keys_remove_nodup _ _ h.askKeysNodup
      · intro kv hkv
        rw [hby2] at hkv
        obtain ⟨hkvm, hkne⟩ := (hby2' kv).mp hkv
        have hkr : kv.2 ≠ r := by
          intro he
          exact hkne (congrArg Prod.fst
            (List.inj_on_of_nodup_map h.refNodup hkvm (assocFind_mem hid)
              (by simpa using he)))
        obtain ⟨ordk, hk, sidek⟩ := h.located kv hkvm
        refine ⟨ordk, ?_, ?_⟩
        · rw [hheap2]; exact hk
        · rcases sidek with hsb | hsa
          · exact Or.inl (by rw [hbids']; exact hsb)
          · exact Or.inr (by rw [hasks']; exact memAtLevel_remove_of hkr hsa)
      · intro x hx
        have hxs : x ∈ allRefs s := by
          have hxm : x ∈ (allRefs s : Multiset Nat) := by
            rw [← hmsAll, Multiset.mem_add]
            exact Or.inl (Multiset.mem_coe.mpr hx)
          exact Multiset.mem_coe.mp hxm
        rcases h.refsCovered x hxs with ⟨kv, hkv, he⟩
        have hkne : kv.1 ≠ id := by
          intro hke
          have : kv = (id, r) :=
            List.inj_on_of_nodup_map h.idNodup hkv (assocFind_mem hid)
              (by simpa using hke)
          rw [this] at he
          have hxr : r = x := he
          exact hrnot (by rwa [← hxr] at hx)
        exact ⟨kv, by rw [hby2]; exact (hby2' kv).mpr ⟨hkv, hkne⟩, he⟩

theorem applyL3Event_inv {s : Level3OrderBookState} {o : Level3Order}
    (is_bid : Bool) (h : L3Inv s) (hok : addOK s o = true) :
    L3Inv (applyL3Event is_bid s o) := by
  unfold applyL3Event
  by_cases hadd : o.event = "add"
  · rw [if_pos hadd]
    have hfresh : assocFind s.orders_by_id o.order_id = none := by
      unfold addOK at hok
      rw [if_pos hadd] at hok
      simpa using hok
    exact inv_counts _ _ _ (add_order_inv is_bid h hfresh)
  · rw [if_neg hadd]
    by_cases hmod : o.event = "modify"
    · rw [if_pos hmod]
      exact inv_counts _ _ _ (modify_order_inv _ _ _ h)
    · rw [if_neg hmod]
      by_cases hdel : o.event = "delete"
      · rw [if_pos hdel]
        exact inv_counts _ _ _ (delete_order_inv _ h)
      · rw [if_neg hdel]
        exact h

theorem events_fold_inv (is_bid : Bool) (orders : List Level3Order) :
    ∀ s : Level3OrderBookState, L3Inv s → eventsOK is_bid s orders = true →
      L3Inv (orders.foldl (applyL3Event is_bid) s) := by
  induction orders with
  | nil => intro s h _; exact h
  | cons o rest ih =>
    intro s h hok
    unfold eventsOK at hok
    rcases Bool.and_eq_true_iff.mp hok with ⟨h1, h2⟩
    rw [List.foldl_cons]
    exact ih _ (applyL3Event_inv is_bid h h1) h2

theorem snap_fold_inv (is_bid : Bool) (orders : List Level3Order) :
    ∀ s : Level3OrderBookState, L3Inv s → snapOK is_bid s orders = true →
      L3Inv (orders.foldl (fun t o => t.add_order o is_bid) s) := by
  induction orders with
  | nil => intro s h _; exact h
  | cons o rest ih =>
    intro s h hok
    unfold snapOK at hok
    rcases Bool.and_eq_true_iff.mp hok with ⟨h1, h2⟩
    rw [List.foldl_cons]
    exact ih _ (add_order_inv is_bid h (by simpa using h1)) h2

theorem applyMsg_inv {s : Level3OrderBookState} {m : L3Msg} (h : L3Inv s)
    (hok : msgOK s m = true) : L3Inv (s.applyMsg m) := by
  cases m with
  | snapshot r =>
    unfold msgOK at hok
    rcases Bool.and_eq_true_iff.mp hok with ⟨h1, h2⟩
    unfold Level3OrderBookState.applyMsg Level3OrderBookState.apply_snapshot
    exact snap_fold_inv false r.asks _
      (snap_fold_inv true r.bids _ (clear_inv h) h1) h2
  | update r =>
    unfold msgOK at hok
    rcases Bool.and_eq_true_iff.mp hok with ⟨h1, h2⟩
    unfold Level3OrderBookState.applyMsg Level3OrderBookState.apply_update
    exact events_fold_inv false r.asks _
      (events_fold_inv true r.bids _ h h1) h2

theorem applyMsgs_inv (ms : List L3Msg) :
    ∀ s : Level3OrderBookState, L3Inv s → msgsOK s ms = true →
      L3Inv (s.applyMsgs ms) := by
  induction ms with
  | nil => intro s h _; exact h
  | cons m rest ih =>
    intro s h hok
    unfold msgsOK at hok
    rcases Bool.and_eq_true_iff.mp hok with ⟨h1, h2⟩
    unfold Level3OrderBookState.applyMsgs
    rw [List.foldl_cons]
    exact ih _ (applyMsg_inv h h1) h2

theorem inv_count_eq {s : Level3OrderBookState} (h : L3Inv s) :
    s.orders_by_id.length =
      totalRefs s.bids_by_price + totalRefs s.asks_by_price := by
  have hvals : (s.orders_by_id.map Prod.snd).Perm (allRefs s) := by
    apply (List.perm_ext_iff_of_nodup h.refNodup h.allNodup).mpr
    intro x
    constructor
    · intro hx
      rcases List.mem_map.mp hx with ⟨kv, hkv, he⟩
      obtain ⟨ord, -, hside⟩ := h.located kv hkv
      show x ∈ refsOfIdx s.bids_by_price ++ refsOfIdx s.asks_by_price
      rcases hside with hb | ha
      · exact List.mem_append_left _ (he ▸ mem_refsOfIdx_of_memAtLevel hb)
      · exact List.mem_append_right _ (he ▸ mem_refsOfIdx_of_memAtLevel ha)
    · intro hx
      rcases h.refsCovered x hx with ⟨kv, hkv, he⟩
      exact List.mem_map.mpr ⟨kv, hkv, he⟩
  have hlen := hvals.length_eq
  rw [List.length_map] at hlen
  rw [hlen]
  unfold allRefs
  rw [List.length_append, refsOfIdx_length, refsOfIdx_length]

/-! ### C4: the dual-index size relation -/

/-- C4 amended claim: on every state reached from the fresh book by
snapshots and updates in which each add event carries an id absent from
the book at the moment it is applied (duplicate-id adds leak a stale
reference into the price index and break the relation), the number of
entries of the id index equals the sum of the lengths of all lists
across the two price indices. -/
theorem l3_size_invariant (sym : String) (ms : List L3Msg)
    (hok : msgsOK (Level3OrderBookState.init sym) ms = true) :
    (Level3OrderBookState.applyMsgs (Level3OrderBookState.init sym)
        ms).orders_by_id.length =
      totalRefs (Level3OrderBookState.applyMsgs (Level3OrderBookState.init sym)
        ms).bids_by_price +
      totalRefs (Level3OrderBookState.applyMsgs (Level3OrderBookState.init sym)
        ms).asks_by_price :=
  inv_count_eq (applyMsgs_inv ms _ (init_inv sym) hok)

/-- Witness for l3_size_invariant on a snapshot followed by a modify
and a delete. -/
theorem l3_size_invariant_witness :
    (Level3OrderBookState.applyMsgs (Level3OrderBookState.init "BTC")
        [L3Msg.snapshot ⟨"t", "BTC", "snapshot",
            [⟨"o1", 100, 1, "ts", ""⟩, ⟨"o2", 100, 2, "ts", ""⟩],
            [⟨"o3", 101, 1, "ts", ""⟩], 0⟩,
         L3Msg.update ⟨"t", "BTC", "update",
            [⟨"o1", 99, 1, "ts", "modify"⟩],
            [⟨"o3", 0, 0, "ts", "delete"⟩], 0⟩]).orders_by_id.length =
      totalRefs (Level3OrderBookState.applyMsgs (Level3OrderBookState.init "BTC")
        [L3Msg.snapshot ⟨"t", "BTC", "snapshot",
            [⟨"o1", 100, 1, "ts", ""⟩, ⟨"o2", 100, 2, "ts", ""⟩],
            [⟨"o3", 101, 1, "ts", ""⟩], 0⟩,
         L3Msg.update ⟨"t", "BTC", "update",
            [⟨"o1", 99, 1, "ts", "modify"⟩],
            [⟨"o3", 0, 0, "ts", "delete"⟩], 0⟩]).bids_by_price +
      totalRefs (Level3OrderBookState.applyMsgs (Level3OrderBookState.init "BTC")
        [L3Msg.snapshot ⟨"t", "BTC", "snapshot",
            [⟨"o1", 100, 1, "ts", ""⟩, ⟨"o2", 100, 2, "ts", ""⟩],
            [⟨"o3", 101, 1, "ts", ""⟩], 0⟩,
         L3Msg.update ⟨"t", "BTC", "update",
            [⟨"o1", 99, 1, "ts", "modify"⟩],
            [⟨"o3", 0, 0, "ts", "delete"⟩], 0⟩]).asks_by_price :=
  l3_size_invariant "BTC"
    [L3Msg.snapshot ⟨"t", "BTC", "snapshot",
        [⟨"o1", 100, 1, "ts", ""⟩, ⟨"o2", 100, 2, "ts", ""⟩],
        [⟨"o3", 101, 1, "ts", ""⟩], 0⟩,
     L3Msg.update ⟨"t", "BTC", "update",
        [⟨"o1", 99, 1, "ts", "modify"⟩],
        [⟨"o3", 0, 0, "ts", "delete"⟩], 0⟩] (by decide)

/-- C4 counterexample: two add events with the same order id (a
reachable update record) leave one entry in the id index but two
references across the price indices, so the relation fails on a state
reachable by apply_update alone. -/
theorem l3_size_counterexample :
    (Level3OrderBookState.applyMsgs (Level3OrderBookState.init "BTC")
        [L3Msg.update ⟨"t", "BTC", "update",
          [⟨"o1", 5, 1, "ts", "add"⟩, ⟨"o1", 5, 2, "ts", "add"⟩], [], 0⟩]
      ).orders_by_id.length = 1 ∧
    totalRefs (Level3OrderBookState.applyMsgs (Level3OrderBookState.init "BTC")
        [L3Msg.update ⟨"t", "BTC", "update",
          [⟨"o1", 5, 1, "ts", "add"⟩, ⟨"o1", 5, 2, "ts", "add"⟩], [], 0⟩]
      ).bids_by_price +
      totalRefs (Level3OrderBookState.applyMsgs (Level3OrderBookState.init "BTC")
        [L3Msg.update ⟨"t", "BTC", "update",
          [⟨"o1", 5, 1, "ts", "add"⟩, ⟨"o1", 5, 2, "ts", "add"⟩], [], 0⟩]
      ).asks_by_price = 2 := by
  decide

end KrakenTools
